import Mathlib

/-!
Verification of the Be-care-kids backend core (`src/api/index.ts`): a shallow
embedding of its JSON extractor, schema normalizer and candidate-fallback
orchestrator, together with proofs about the frozen specification claims.

JavaScript runtime values are modelled by `JSValue`; JavaScript numbers are
modelled by `JSNum` (an exact rational for every finite value, plus NaN and
the two infinities — float rounding and overflow are not modelled, which is
irrelevant to the claims below, all of which live on small exact values).
Platform builtins used by the source (`Number`, `String`, `Array.isArray`,
property access, `JSON.parse`/`JSON.stringify`, `RegExp.test`) are modelled
from their ECMAScript semantics on the fragment the source exercises; each
model notes the fragment it covers.
-/

/-- A JavaScript number: a finite (exact) value, NaN, or an infinity. -/
inductive JSNum where
  | finite (q : ℚ)
  | nan
  | posInf
  | negInf
deriving DecidableEq

/-- A JavaScript runtime value, as consumed and produced by the source:
`undefined`, `null`, booleans, numbers, strings, arrays and plain objects
(an object is its ordered field list; property lookup takes the first hit). -/
inductive JSValue where
  | undefined
  | null
  | bool (b : Bool)
  | num (n : JSNum)
  | str (s : String)
  | arr (elems : List JSValue)
  | obj (fields : List (String × JSValue))

namespace JSValue

/-- Optional-chaining property access `base?.key`: `undefined` when the base is
`null`/`undefined`, the first binding of `key` on an object, and `undefined`
on every other primitive or array (none of the accessed keys is a built-in). -/
def getOpt (base : JSValue) (key : String) : JSValue :=
  match base with
  | .obj fields =>
      match fields.find? (fun kv => kv.1 = key) with
      | some kv => kv.2
      | none => .undefined
  | _ => .undefined

/-- Strict property access `base.key`: a TypeError (modelled as `Except.error`)
when the base is `null`/`undefined`, otherwise as `getOpt`. -/
def get (base : JSValue) (key : String) : Except String JSValue :=
  match base with
  | .null => .error "TypeError: Cannot read properties of null"
  | .undefined => .error "TypeError: Cannot read properties of undefined"
  | b => .ok (b.getOpt key)

/-- JavaScript falsiness: `undefined`, `null`, `false`, `0`, `NaN` and the
empty string are falsy; everything else (objects and arrays included) is
truthy. -/
def falsy : JSValue → Bool
  | .undefined => true
  | .null => true
  | .bool b => !b
  | .num (.finite q) => q = 0
  | .num .nan => true
  | .num _ => false
  | .str s => s = ""
  | .arr _ => false
  | .obj _ => false

/-- The `Array.isArray` test. -/
def isArray : JSValue → Bool
  | .arr _ => true
  | _ => false

end JSValue

/-- Whitespace for the purposes of `String.prototype.trim`, `Number(string)`
and the regex class `\s` (the ASCII fragment; exotic Unicode space code
points never arise in the source's strings). -/
def jsIsWs (c : Char) : Bool :=
  c = ' ' || c = '\t' || c = '\n' || c = '\r' || c = '\x0b' || c = '\x0c'

/-- Trim leading and trailing JS whitespace from a character list. -/
def jsTrimChars (cs : List Char) : List Char :=
  ((cs.dropWhile jsIsWs).reverse.dropWhile jsIsWs).reverse

/-- Decimal digit test. -/
def isDigitChar (c : Char) : Bool := '0' ≤ c && c ≤ '9'

/-- Value of a decimal digit. -/
def digitVal (c : Char) : ℕ := c.toNat - 48

/-- Fold a run of decimal digits into a natural number. -/
def foldDecDigits (ds : List Char) : ℕ :=
  ds.foldl (fun a c => a * 10 + digitVal c) 0

/-- Hexadecimal digit test. -/
def isHexDigitChar (c : Char) : Bool :=
  isDigitChar c || ('a' ≤ c && c ≤ 'f') || ('A' ≤ c && c ≤ 'F')

/-- Value of a hexadecimal digit. -/
def hexVal (c : Char) : ℕ :=
  if isDigitChar c then c.toNat - 48
  else if 'a' ≤ c && c ≤ 'f' then c.toNat - 87
  else c.toNat - 55

/-- Fold a run of digits in a given base into a natural number. -/
def foldBaseDigits (base : ℕ) (ds : List Char) : ℕ :=
  ds.foldl (fun a c => a * base + hexVal c) 0

/-- Parse the exponent part `e`/`E` with optional sign of a decimal literal;
returns the signed exponent and the rest, or fails. -/
def parseExponent (cs : List Char) : Option (ℤ × List Char) :=
  match cs with
  | 'e' :: rest | 'E' :: rest =>
      let signAndRest : (ℤ → ℤ) × List Char :=
        match rest with
        | '+' :: r => (id, r)
        | '-' :: r => (fun z => -z, r)
        | r => (id, r)
      let ds := signAndRest.2.takeWhile isDigitChar
      let r2 := signAndRest.2.dropWhile isDigitChar
      if ds.isEmpty then none
      else some (signAndRest.1 (foldDecDigits ds : ℤ), r2)
  | _ => none

/-- Parse an unsigned decimal literal (`digits`, `digits.digits?`, `.digits`,
each with optional exponent); returns its exact rational value and the rest. -/
def parseUnsignedDec (cs : List Char) : Option (ℚ × List Char) :=
  let intDs := cs.takeWhile isDigitChar
  let afterInt := cs.dropWhile isDigitChar
  match afterInt with
  | '.' :: afterDot =>
      let fracDs := afterDot.takeWhile isDigitChar
      let afterFrac := afterDot.dropWhile isDigitChar
      if intDs.isEmpty && fracDs.isEmpty then none
      else
        let base : ℚ := (foldDecDigits intDs : ℚ) +
          (foldDecDigits fracDs : ℚ) / ((10 : ℚ) ^ fracDs.length)
        match parseExponent afterFrac with
        | some (e, r) => some (base * (10 : ℚ) ^ e, r)
        | none => some (base, afterFrac)
  | _ =>
      if intDs.isEmpty then none
      else
        let base : ℚ := (foldDecDigits intDs : ℚ)
        match parseExponent afterInt with
        | some (e, r) => some (base * (10 : ℚ) ^ e, r)
        | none => some (base, afterInt)

/-- ECMAScript `StringToNumber` (the `Number(string)` conversion): trim, empty
means `0`, otherwise a signed decimal literal, a signed `Infinity`, or an
unsigned `0x`/`0o`/`0b` integer literal; anything else is NaN. Float overflow
of huge literals to Infinity is not modelled. -/
def jsStringToNumber (s : String) : JSNum :=
  let cs := jsTrimChars s.data
  match cs with
  | [] => .finite 0
  | '0' :: 'x' :: ds | '0' :: 'X' :: ds =>
      if !ds.isEmpty && ds.all isHexDigitChar then .finite (foldBaseDigits 16 ds : ℚ) else .nan
  | '0' :: 'o' :: ds | '0' :: 'O' :: ds =>
      if !ds.isEmpty && ds.all (fun c => '0' ≤ c && c ≤ '7') then .finite (foldBaseDigits 8 ds : ℚ) else .nan
  | '0' :: 'b' :: ds | '0' :: 'B' :: ds =>
      if !ds.isEmpty && ds.all (fun c => c = '0' || c = '1') then .finite (foldBaseDigits 2 ds : ℚ) else .nan
  | _ =>
      let signAndRest : (ℚ → ℚ) × Bool × List Char :=
        match cs with
        | '+' :: r => (id, false, r)
        | '-' :: r => (fun q => -q, true, r)
        | r => (id, false, r)
      match signAndRest.2.2 with
      | 'I' :: 'n' :: 'f' :: 'i' :: 'n' :: 'i' :: 't' :: 'y' :: [] =>
          if signAndRest.2.1 then .negInf else .posInf
      | body =>
          match parseUnsignedDec body with
          | some (q, []) => .finite (signAndRest.1 q)
          | _ => .nan

/-- Decimal digit character of a single digit value. -/
def digitChar (n : ℕ) : Char := Char.ofNat (48 + n)

/-- Decimal digits, fueled for structural recursion (any fuel above the value
itself is enough, since the value shrinks by a factor of ten each step). -/
def natDigitsFuel : ℕ → ℕ → List Char
  | 0, _ => []
  | f + 1, n => if n < 10 then [digitChar n] else natDigitsFuel f (n / 10) ++ [digitChar (n % 10)]

/-- Decimal digits of a natural number, most significant first. -/
def natDigits (n : ℕ) : List Char := natDigitsFuel (n + 1) n

/-- Exponent of the prime `p` in `n`, fueled for structural recursion. -/
def powCountFuel : ℕ → ℕ → ℕ → ℕ
  | 0, _, _ => 0
  | f + 1, p, n => if 1 < p ∧ 0 < n ∧ n % p = 0 then powCountFuel f p (n / p) + 1 else 0

/-- Exponent of the prime `p` in `n` (0 for `n = 0` or `p ≤ 1`). -/
def powCount (p n : ℕ) : ℕ := powCountFuel (n + 1) p n

/-- ECMAScript number-to-string on the fragment the source exercises: exact
decimal notation for finite values whose reduced denominator is of the form
`2^a * 5^b` (every value arising from parsed decimal input is of this form);
other rationals — artifacts of the exact model with no double counterpart —
render as `num/den`. NaN and the infinities use their JS spellings. -/
def jsNumToString (n : JSNum) : String :=
  match n with
  | .nan => "NaN"
  | .posInf => "Infinity"
  | .negInf => "-Infinity"
  | .finite q =>
      let sign := if q < 0 then "-" else ""
      let n := q.num.natAbs
      let d := q.den
      if d = 1 then sign ++ ⟨natDigits n⟩
      else
        let a := powCount 2 d
        let b := powCount 5 d
        if 2 ^ a * 5 ^ b = d then
          let k := max a b
          let scaled := n * (10 ^ k / d)
          let ds := natDigits scaled
          let padded := List.replicate (k + 1 - ds.length) '0' ++ ds
          sign ++ ⟨padded.take (padded.length - k)⟩ ++ "." ++ ⟨padded.drop (padded.length - k)⟩
        else sign ++ ⟨natDigits n⟩ ++ "/" ++ ⟨natDigits d⟩

mutual

/-- ECMAScript `String(value)` / `ToString`: `undefined`/`null`/booleans by
name, numbers via `jsNumToString`, strings unchanged, arrays via
`Array.prototype.join(",")` (holes, `null` and `undefined` join as empty),
plain objects as `"[object Object]"`. -/
def jsToString (v : JSValue) : String :=
  match v with
  | .undefined => "undefined"
  | .null => "null"
  | .bool b => if b then "true" else "false"
  | .num n => jsNumToString n
  | .str s => s
  | .arr elems => jsJoinElems elems
  | .obj _ => "[object Object]"

/-- `Array.prototype.toString`: elements joined by commas, with `null` and
`undefined` elements contributing the empty string. -/
def jsJoinElems (elems : List JSValue) : String :=
  match elems with
  | [] => ""
  | [e] => match e with | .null => "" | .undefined => "" | e => jsToString e
  | e :: rest =>
      (match e with | .null => "" | .undefined => "" | e => jsToString e) ++ "," ++ jsJoinElems rest

end

/-- ECMAScript `ToNumber` (`Number(value)`): `undefined ↦ NaN`, `null ↦ 0`,
`true ↦ 1`, `false ↦ 0`, numbers unchanged, strings via `StringToNumber`,
arrays via their primitive (join) string, plain objects via their primitive
string `"[object Object]"`, which is NaN. -/
def jsToNumber (v : JSValue) : JSNum :=
  match v with
  | .undefined => .nan
  | .null => .finite 0
  | .bool b => .finite (if b then 1 else 0)
  | .num n => n
  | .str s => jsStringToNumber s
  | .arr elems => jsStringToNumber (jsJoinElems elems)
  | .obj _ => .nan

/-- The coercion step of the source `toNumber` (src/api/index.ts:74):
`typeof value === 'number' ? value : Number(value)`. -/
def coerceNum (value : JSValue) : JSNum :=
  match value with
  | .num n => n
  | v => jsToNumber v

/-- Source `toNumber` (src/api/index.ts:73-76): take the value itself when it
is already a number, otherwise `Number(value)`; return it when finite, the
fallback otherwise. -/
def toNumber (value : JSValue) (fallback : ℚ) : ℚ :=
  match coerceNum value with
  | .finite q => q
  | _ => fallback

/-- Nullish coalescing `a ?? b`. -/
def jsNullish (a b : JSValue) : JSValue :=
  match a with
  | .null => b
  | .undefined => b
  | a => a

/-- Macro nutrient record of the fixed schema. -/
structure Macros where
  protein_g : ℚ
  carbs_g : ℚ
  fat_g : ℚ
  fiber_g : ℚ
  sugar_g : ℚ
deriving DecidableEq

/-- Micro nutrient record of the fixed schema. -/
structure Micros where
  sodium_mg : ℚ
  potassium_mg : ℚ
  calcium_mg : ℚ
  iron_mg : ℚ
  vitamin_a_mcg : ℚ
  vitamin_c_mg : ℚ
  cholesterol_mg : ℚ
deriving DecidableEq

/-- Nutrition record of one food item. -/
structure Nutrition where
  calories_kcal : ℚ
  macros : Macros
  micros : Micros
  allergens : List String
deriving DecidableEq

/-- Normalized bounding box. -/
structure BBoxNorm where
  x : ℚ
  y : ℚ
  w : ℚ
  h : ℚ
deriving DecidableEq

/-- A fully-populated food item of the normalized schema. -/
structure FoodItem where
  label : String
  confidence : ℚ
  serving_est_g : ℚ
  bbox_norm : BBoxNorm
  nutrition : Nutrition
deriving DecidableEq

/-- The three admissible orientations. -/
inductive Orient where
  | portrait
  | landscape
  | square
deriving DecidableEq

/-- Image metadata of the normalized schema. -/
structure ImageMeta where
  width : ℚ
  height : ℚ
  orientation : Orient
deriving DecidableEq

/-- Totals record of the normalized schema. -/
structure Totals where
  serving_total_g : ℚ
  calories_kcal : ℚ
  macros : Macros
  micros : Micros
  allergens : List String
deriving DecidableEq

/-- The normalizer's output: a fully-populated analysis result. -/
structure AnalysisResult where
  image_meta : ImageMeta
  composition : List FoodItem
  totals : Totals
  notes : Option String
deriving DecidableEq

/-- Orientation derived from width/height (src/api/index.ts:87-91): equal
means square, wider means landscape, else portrait. -/
def deriveOrientation (w h : ℚ) : Orient :=
  if w = h then .square else if w > h then .landscape else .portrait

/-- The source's orientation validity test (src/api/index.ts:83-85): the value
is exactly one of the three enum strings. -/
def isOrientStr (v : JSValue) : Bool :=
  match v with
  | .str "portrait" => true
  | .str "landscape" => true
  | .str "square" => true
  | _ => false

/-- Conversion of a validated orientation string to the enum (only ever
applied under `isOrientStr`, where the wildcard branch means portrait). -/
def orientFromJS (v : JSValue) : Orient :=
  match v with
  | .str "landscape" => .landscape
  | .str "square" => .square
  | _ => .portrait

/-- The `image_meta` normalization (src/api/index.ts:79-92): width and height
coerced with default 0; orientation kept only when it is exactly one of the
three enum strings, otherwise derived from the coerced width/height. -/
def normImageMeta (raw : JSValue) : ImageMeta :=
  let m := raw.getOpt "image_meta"
  let w := toNumber (m.getOpt "width") 0
  let h := toNumber (m.getOpt "height") 0
  { width := w
    height := h
    orientation :=
      if isOrientStr (m.getOpt "orientation") then orientFromJS (m.getOpt "orientation")
      else deriveOrientation w h }

/-- The raw composition list (src/api/index.ts:94): the `composition` field if
it is an array, else empty. -/
def rawComposition (raw : JSValue) : List JSValue :=
  match raw.getOpt "composition" with
  | .arr l => l
  | _ => []

/-- One composition item's normalization (src/api/index.ts:95-125), as a pure
function (the strict access `it.nutrition.allergens` is guarded by
`Array.isArray(it?.nutrition?.allergens)` in the source, so it equals the
optional chain; `normItemE` below models the strict access and
`normItemE_eq_ok` proves the two agree). -/
def normItem (it : JSValue) : FoodItem :=
  { label := jsToString (jsNullish (it.getOpt "label") (.str "item"))
    confidence := toNumber (it.getOpt "confidence") (1/2)
    serving_est_g := toNumber (it.getOpt "serving_est_g") 0
    bbox_norm :=
      { x := toNumber ((it.getOpt "bbox_norm").getOpt "x") 0
        y := toNumber ((it.getOpt "bbox_norm").getOpt "y") 0
        w := toNumber ((it.getOpt "bbox_norm").getOpt "w") 0
        h := toNumber ((it.getOpt "bbox_norm").getOpt "h") 0 }
    nutrition :=
      { calories_kcal := toNumber ((it.getOpt "nutrition").getOpt "calories_kcal") 0
        macros :=
          { protein_g := toNumber (((it.getOpt "nutrition").getOpt "macros").getOpt "protein_g") 0
            carbs_g := toNumber (((it.getOpt "nutrition").getOpt "macros").getOpt "carbs_g") 0
            fat_g := toNumber (((it.getOpt "nutrition").getOpt "macros").getOpt "fat_g") 0
            fiber_g := toNumber (((it.getOpt "nutrition").getOpt "macros").getOpt "fiber_g") 0
            sugar_g := toNumber (((it.getOpt "nutrition").getOpt "macros").getOpt "sugar_g") 0 }
        micros :=
          { sodium_mg := toNumber (((it.getOpt "nutrition").getOpt "micros").getOpt "sodium_mg") 0
            potassium_mg := toNumber (((it.getOpt "nutrition").getOpt "micros").getOpt "potassium_mg") 0
            calcium_mg := toNumber (((it.getOpt "nutrition").getOpt "micros").getOpt "calcium_mg") 0
            iron_mg := toNumber (((it.getOpt "nutrition").getOpt "micros").getOpt "iron_mg") 0
            vitamin_a_mcg := toNumber (((it.getOpt "nutrition").getOpt "micros").getOpt "vitamin_a_mcg") 0
            vitamin_c_mg := toNumber (((it.getOpt "nutrition").getOpt "micros").getOpt "vitamin_c_mg") 0
            cholesterol_mg := toNumber (((it.getOpt "nutrition").getOpt "micros").getOpt "cholesterol_mg") 0 }
        allergens :=
          match (it.getOpt "nutrition").getOpt "allergens" with
          | .arr l => l.map jsToString
          | _ => [] } }

/-- Sum of a numeric field over the normalized items (the source's
`reduce((s, i) => s + toNumber(i.field, 0), 0)`; the inner `toNumber` is
applied to an already-finite number, hence the `.num (.finite _)` wrapper). -/
def sumBy (f : FoodItem → ℚ) (items : List FoodItem) : ℚ :=
  items.foldl (fun s i => s + toNumber (.num (.finite (f i))) 0) 0

/-- First-occurrence deduplication with the set of already-kept strings. -/
def dedupFirstAux (seen : List String) : List String → List String
  | [] => []
  | a :: t => if a ∈ seen then dedupFirstAux seen t else a :: dedupFirstAux (a :: seen) t

/-- First-occurrence deduplication, as performed by
`Array.from(new Set(...))` (JS `Set` iterates in insertion order). -/
def dedupFirst (l : List String) : List String := dedupFirstAux [] l

/-- Union of the normalized items' allergen lists (src/api/index.ts:150): the
source re-checks `Array.isArray(i?.nutrition?.allergens)` and re-applies
`String`, but on a normalized item the field is always an array of strings
and `String` is the identity on strings, written here as the inner `map`. -/
def itemAllergenUnion (items : List FoodItem) : List String :=
  dedupFirst (items.flatMap (fun i => i.nutrition.allergens.map (fun s => jsToString (.str s))))

/-- The `totals` normalization (src/api/index.ts:128-151) over the provided
totals value `tp` (already `?? {}`-defaulted) and the normalized items: each
numeric field coerces the provided value with the field-wise item sum as the
fallback; allergens take the provided array coerced to strings, else the
deduplicated union of item allergens. -/
def normTotals (tp : JSValue) (items : List FoodItem) : Totals :=
  { serving_total_g := toNumber (tp.getOpt "serving_total_g") (sumBy (fun i => i.serving_est_g) items)
    calories_kcal := toNumber (tp.getOpt "calories_kcal") (sumBy (fun i => i.nutrition.calories_kcal) items)
    macros :=
      { protein_g := toNumber ((tp.getOpt "macros").getOpt "protein_g") (sumBy (fun i => i.nutrition.macros.protein_g) items)
        carbs_g := toNumber ((tp.getOpt "macros").getOpt "carbs_g") (sumBy (fun i => i.nutrition.macros.carbs_g) items)
        fat_g := toNumber ((tp.getOpt "macros").getOpt "fat_g") (sumBy (fun i => i.nutrition.macros.fat_g) items)
        fiber_g := toNumber ((tp.getOpt "macros").getOpt "fiber_g") (sumBy (fun i => i.nutrition.macros.fiber_g) items)
        sugar_g := toNumber ((tp.getOpt "macros").getOpt "sugar_g") (sumBy (fun i => i.nutrition.macros.sugar_g) items) }
    micros :=
      { sodium_mg := toNumber ((tp.getOpt "micros").getOpt "sodium_mg") (sumBy (fun i => i.nutrition.micros.sodium_mg) items)
        potassium_mg := toNumber ((tp.getOpt "micros").getOpt "potassium_mg") (sumBy (fun i => i.nutrition.micros.potassium_mg) items)
        calcium_mg := toNumber ((tp.getOpt "micros").getOpt "calcium_mg") (sumBy (fun i => i.nutrition.micros.calcium_mg) items)
        iron_mg := toNumber ((tp.getOpt "micros").getOpt "iron_mg") (sumBy (fun i => i.nutrition.micros.iron_mg) items)
        vitamin_a_mcg := toNumber ((tp.getOpt "micros").getOpt "vitamin_a_mcg") (sumBy (fun i => i.nutrition.micros.vitamin_a_mcg) items)
        vitamin_c_mg := toNumber ((tp.getOpt "micros").getOpt "vitamin_c_mg") (sumBy (fun i => i.nutrition.micros.vitamin_c_mg) items)
        cholesterol_mg := toNumber ((tp.getOpt "micros").getOpt "cholesterol_mg") (sumBy (fun i => i.nutrition.micros.cholesterol_mg) items) }
    allergens :=
      match tp.getOpt "allergens" with
      | .arr l => l.map jsToString
      | _ => itemAllergenUnion items }

/-- The schema normalizer `normalizeAnalysis` (src/api/index.ts:78-159) as a
pure total function; `normalizeAnalysis` below additionally models the
possibility of JS TypeErrors at the strict property accesses, and
`normalizeAnalysis_eq_ok` proves it always returns this value. -/
def normAnalysisFun (raw : JSValue) : AnalysisResult :=
  let items := (rawComposition raw).map normItem
  { image_meta := normImageMeta raw
    composition := items
    totals := normTotals (jsNullish (raw.getOpt "totals") (.obj [])) items
    notes :=
      match raw.getOpt "notes" with
      | .str s => some s
      | _ => none }


/-- One composition item's normalization with JS strict-access semantics: the
source's `it.nutrition.allergens.map(String)` (src/api/index.ts:123) performs
two strict accesses and a method call, each of which would throw on the wrong
shape; they are guarded by `Array.isArray(it?.nutrition?.allergens)`. -/
def normItemE (it : JSValue) : Except String FoodItem := do
  let allergens ←
    if ((it.getOpt "nutrition").getOpt "allergens").isArray then do
      let n ← it.get "nutrition"
      let al ← n.get "allergens"
      match al with
      | .arr l => pure (l.map jsToString)
      | _ => Except.error "TypeError: map is not a function"
    else
      pure ([] : List String)
  pure { normItem it with nutrition := { (normItem it).nutrition with allergens := allergens } }

/-- The guarded orientation read of the source (src/api/index.ts:82-91): when
the optional chain `raw?.image_meta?.orientation` is one of the three enum
strings, the kept value is read back by the strict accesses
`raw.image_meta.orientation`; otherwise the orientation is derived. -/
def orientationRead (raw : JSValue) : Except String Orient :=
  if isOrientStr ((raw.getOpt "image_meta").getOpt "orientation") then do
    let im ← raw.get "image_meta"
    let o ← im.get "orientation"
    pure (orientFromJS o)
  else
    pure (deriveOrientation (toNumber ((raw.getOpt "image_meta").getOpt "width") 0)
      (toNumber ((raw.getOpt "image_meta").getOpt "height") 0))

/-- The guarded composition read of the source (src/api/index.ts:94):
`Array.isArray(raw?.composition) ? raw.composition : []` with the strict
access in the taken branch. -/
def compositionRead (raw : JSValue) : Except String (List JSValue) :=
  if (raw.getOpt "composition").isArray then do
    let c ← raw.get "composition"
    match c with
    | .arr l => pure l
    | _ => Except.error "TypeError: map is not a function"
  else
    pure []

/-- The guarded totals-allergens read of the source (src/api/index.ts:148-150):
`Array.isArray(totalsProvided?.allergens) ? totalsProvided.allergens.map(String)
: Array.from(new Set(...))`. -/
def allergensRead (tp : JSValue) (fallback : List String) : Except String (List String) :=
  if (tp.getOpt "allergens").isArray then do
    let al ← tp.get "allergens"
    match al with
    | .arr l => pure (l.map jsToString)
    | _ => Except.error "TypeError: map is not a function"
  else
    pure fallback

/-- The schema normalizer with JS strict-access semantics (`normalizeAnalysis`,
src/api/index.ts:78-159): the strict accesses `raw.image_meta.orientation`
(line 86), `raw.composition` (line 94), the per-item allergens access
(line 123) and `totalsProvided.allergens` (line 149) may throw a TypeError in
JS and are modelled in the `Except` monad; each is guarded in the source, and
`normalizeAnalysis_eq_ok` proves the function always succeeds with the value
of the pure `normAnalysisFun`. -/
def normalizeAnalysis (raw : JSValue) : Except String AnalysisResult :=
  (orientationRead raw).bind fun orientation =>
    (compositionRead raw).bind fun composition =>
      (composition.mapM normItemE).bind fun items =>
        let tp := jsNullish (raw.getOpt "totals") (.obj [])
        (allergensRead tp (itemAllergenUnion items)).bind fun totalsAllergens =>
          Except.ok
            { image_meta :=
                { width := toNumber ((raw.getOpt "image_meta").getOpt "width") 0
                  height := toNumber ((raw.getOpt "image_meta").getOpt "height") 0
                  orientation := orientation }
              composition := items
              totals := { normTotals tp items with allergens := totalsAllergens }
              notes :=
                match raw.getOpt "notes" with
                | .str s => some s
                | _ => none }

/-- Hexadecimal digit character (lowercase), as emitted by `JSON.stringify`
unicode escapes. -/
def hexDigitChar (n : ℕ) : Char := if n < 10 then Char.ofNat (48 + n) else Char.ofNat (87 + n)

/-- `JSON.stringify` string-character escaping: quote, backslash and the named
control characters take their two-character escapes; other control characters
take a `\u00XX` escape; everything else is literal. -/
def escapeChar (c : Char) : List Char :=
  if c = '"' then ['\\', '"']
  else if c = '\\' then ['\\', '\\']
  else if c = '\n' then ['\\', 'n']
  else if c = '\t' then ['\\', 't']
  else if c = '\r' then ['\\', 'r']
  else if c = Char.ofNat 8 then ['\\', 'b']
  else if c = Char.ofNat 12 then ['\\', 'f']
  else if c.toNat < 32 then ['\\', 'u', '0', '0', hexDigitChar (c.toNat / 16), hexDigitChar (c.toNat % 16)]
  else [c]

/-- Escape a whole string body. -/
def escChars (cs : List Char) : List Char := cs.flatMap escapeChar

mutual

/-- `JSON.stringify` (no spacing), as used implicitly by the round-trip claim.
Model notes: `undefined` and non-finite numbers serialize as `null` (exact for
array elements and for non-finite numbers; top-level `undefined` and
`undefined`-valued object members behave differently in JS and are excluded
by `pureJson` below), and non-integer rationals fall back to
`jsNumToString` (the round-trip theorem restricts numbers to integers). -/
def serVal : JSValue → List Char
  | .undefined => "null".data
  | .null => "null".data
  | .bool b => if b then "true".data else "false".data
  | .num (.finite q) => (jsNumToString (.finite q)).data
  | .num _ => "null".data
  | .str s => '"' :: (escChars s.data ++ ['"'])
  | .arr xs => '[' :: (serElems xs ++ [']'])
  | .obj ms => '\x7b' :: (serMembers ms ++ ['\x7d'])

/-- Serialize array elements, comma-separated. -/
def serElems : List JSValue → List Char
  | [] => []
  | [x] => serVal x
  | x :: xs => serVal x ++ ',' :: serElems xs

/-- Serialize object members, comma-separated. -/
def serMembers : List (String × JSValue) → List Char
  | [] => []
  | [(k, v)] => '"' :: (escChars k.data ++ ('"' :: ':' :: serVal v))
  | (k, v) :: ms => ('"' :: (escChars k.data ++ ('"' :: ':' :: serVal v))) ++ ',' :: serMembers ms

end

mutual

/-- The JSON-serializable values of the model: no `undefined`, no non-finite
number, and (a model restriction noted at `serVal`) integer numerics only. -/
def pureJson : JSValue → Bool
  | .undefined => false
  | .null => true
  | .bool _ => true
  | .num (.finite q) => q.den = 1
  | .num _ => false
  | .str _ => true
  | .arr xs => pureJsonList xs
  | .obj ms => pureJsonMembers ms

/-- All elements serializable. -/
def pureJsonList : List JSValue → Bool
  | [] => true
  | x :: xs => pureJson x && pureJsonList xs

/-- All member values serializable. -/
def pureJsonMembers : List (String × JSValue) → Bool
  | [] => true
  | (_, v) :: ms => pureJson v && pureJsonMembers ms

end

/-- Decode a single-character JSON escape. -/
def escDecode (e : Char) : Option Char :=
  if e = '"' then some '"'
  else if e = '\\' then some '\\'
  else if e = '/' then some '/'
  else if e = 'n' then some '\n'
  else if e = 't' then some '\t'
  else if e = 'r' then some '\r'
  else if e = 'b' then some (Char.ofNat 8)
  else if e = 'f' then some (Char.ofNat 12)
  else none

/-- Parse a JSON string body (after the opening quote) up to and including the
closing quote; returns the decoded characters and the rest. -/
def parseStrBody : List Char → Option (List Char × List Char)
  | [] => none
  | c :: rest =>
      if c = '"' then some ([], rest)
      else if c = '\\' then
        match rest with
        | [] => none
        | e :: rest2 =>
            if e = 'u' then
              match rest2 with
              | a :: b :: c2 :: d :: rest3 =>
                  if isHexDigitChar a && isHexDigitChar b && isHexDigitChar c2 && isHexDigitChar d then
                    match parseStrBody rest3 with
                    | some (sb, r2) =>
                        some (Char.ofNat (((hexVal a * 16 + hexVal b) * 16 + hexVal c2) * 16 +
                          hexVal d) :: sb, r2)
                    | none => none
                  else none
              | _ => none
            else
              match escDecode e with
              | some ch =>
                  match parseStrBody rest2 with
                  | some (sb, r2) => some (ch :: sb, r2)
                  | none => none
              | none => none
      else
        match parseStrBody rest with
        | some (sb, r2) => some (c :: sb, r2)
        | none => none

/-- Parse an unsigned JSON number (integer part with no leading zero, optional
fraction, optional exponent), exactly as a rational. -/
def parseJNumPos (cs : List Char) : Option (ℚ × List Char) :=
  let intDs := cs.takeWhile isDigitChar
  let r1 := cs.dropWhile isDigitChar
  if intDs.isEmpty then none
  else if 1 < intDs.length && intDs.headI = '0' then none
  else
    let ip : ℚ := (foldDecDigits intDs : ℚ)
    match r1 with
    | '.' :: r2 =>
        let fds := r2.takeWhile isDigitChar
        let r3 := r2.dropWhile isDigitChar
        if fds.isEmpty then none
        else
          let base := ip + (foldDecDigits fds : ℚ) / (10 : ℚ) ^ fds.length
          match parseExponent r3 with
          | some (e, r4) => some (base * (10 : ℚ) ^ e, r4)
          | none => some (base, r3)
    | _ =>
        match parseExponent r1 with
        | some (e, r2) => some (ip * (10 : ℚ) ^ e, r2)
        | none => some (ip, r1)

/-- Parse a JSON number with optional leading minus. -/
def parseJNum (cs : List Char) : Option (ℚ × List Char) :=
  match cs with
  | [] => none
  | c :: rest =>
      if c = '-' then (parseJNumPos rest).map (fun p => (-p.1, p.2))
      else parseJNumPos (c :: rest)

mutual

/-- Fueled JSON value parser (the model of `JSON.parse`; the fuel is
decremented on every nested call and `2·length + 2` suffices for any
serialized value — see the round-trip theorem). Leading whitespace is
skipped; the value ends wherever its grammar ends. -/
def parseVal : ℕ → List Char → Option (JSValue × List Char)
  | 0, _ => none
  | f + 1, cs =>
      match cs.dropWhile jsIsWs with
      | [] => none
      | c :: rest =>
          if c = 'n' then
            match rest with
            | 'u' :: 'l' :: 'l' :: r => some (.null, r)
            | _ => none
          else if c = 't' then
            match rest with
            | 'r' :: 'u' :: 'e' :: r => some (.bool true, r)
            | _ => none
          else if c = 'f' then
            match rest with
            | 'a' :: 'l' :: 's' :: 'e' :: r => some (.bool false, r)
            | _ => none
          else if c = '"' then
            match parseStrBody rest with
            | some (sb, r) => some (.str ⟨sb⟩, r)
            | none => none
          else if c = '[' then
            match rest.dropWhile jsIsWs with
            | ']' :: r => some (.arr [], r)
            | _ =>
                match parseElems f rest with
                | some (es, r) => some (.arr es, r)
                | none => none
          else if c = '\x7b' then
            match rest.dropWhile jsIsWs with
            | '\x7d' :: r => some (.obj [], r)
            | _ =>
                match parseMembers f rest with
                | some (ms, r) => some (.obj ms, r)
                | none => none
          else (parseJNum (c :: rest)).map (fun p => (.num (.finite p.1), p.2))

/-- Fueled parser for one-or-more array elements up to and including `]`. -/
def parseElems : ℕ → List Char → Option (List JSValue × List Char)
  | 0, _ => none
  | f + 1, cs =>
      match parseVal f cs with
      | none => none
      | some (v, r) =>
          match r.dropWhile jsIsWs with
          | ',' :: r2 =>
              match parseElems f r2 with
              | some (es, r3) => some (v :: es, r3)
              | none => none
          | ']' :: r2 => some ([v], r2)
          | _ => none

/-- Fueled parser for one-or-more object members up to and including the
closing brace. -/
def parseMembers : ℕ → List Char → Option (List (String × JSValue) × List Char)
  | 0, _ => none
  | f + 1, cs =>
      match cs.dropWhile jsIsWs with
      | '"' :: rest =>
          match parseStrBody rest with
          | none => none
          | some (k, r) =>
              match r.dropWhile jsIsWs with
              | ':' :: r2 =>
                  match parseVal f r2 with
                  | none => none
                  | some (v, r3) =>
                      match r3.dropWhile jsIsWs with
                      | ',' :: r4 =>
                          match parseMembers f r4 with
                          | some (ms, r5) => some ((⟨k⟩, v) :: ms, r5)
                          | none => none
                      | '\x7d' :: r4 => some ([(⟨k⟩, v)], r4)
                      | _ => none
              | _ => none
      | _ => none

end

/-- `JSON.parse` on a character list: parse one value and require only
trailing whitespace. -/
def jsonParseChars (cs : List Char) : Option JSValue :=
  match parseVal (2 * cs.length + 2) cs with
  | some (v, rest) => if (rest.dropWhile jsIsWs).isEmpty then some v else none
  | none => none

/-- Fueled scan for the fence-removal regexes (every step consumes at least
one character, so the input length is enough fuel). -/
def replaceFenceJsonFuel : ℕ → List Char → List Char
  | 0, _ => []
  | _, [] => []
  | f + 1, '`' :: '`' :: '`' :: 'j' :: 's' :: 'o' :: 'n' :: rest =>
      replaceFenceJsonFuel f (rest.dropWhile jsIsWs)
  | f + 1, c :: rest => c :: replaceFenceJsonFuel f rest

/-- The global replacement of the regex `/```json\s*/g` (src/api/index.ts:58):
remove every occurrence of three backticks followed by `json` and any
following whitespace, scanning left to right without re-scanning. -/
def replaceFenceJson (cs : List Char) : List Char := replaceFenceJsonFuel cs.length cs

/-- The global replacement of the regex `/```/g` (src/api/index.ts:58):
remove every occurrence of three backticks. -/
def replaceFence : List Char → List Char
  | [] => []
  | '`' :: '`' :: '`' :: rest => replaceFence rest
  | c :: rest => c :: replaceFence rest

/-- Index of the first `{` (`String.prototype.indexOf`). -/
def firstBraceIdx (cs : List Char) : Option ℕ :=
  cs.findIdx? (fun c => c = '\x7b')

/-- Index of the last `}` (`String.prototype.lastIndexOf`). -/
def lastBraceIdx (cs : List Char) : Option ℕ :=
  match cs.reverse.findIdx? (fun c => c = '\x7d') with
  | some i => some (cs.length - 1 - i)
  | none => none

/-- The source `extractJSON` (src/api/index.ts:54-71): try `JSON.parse` on the
whole text; failing that, strip markdown fences, trim, and parse; failing
that, parse the substring from the first `{` to the last `}` when the latter
follows the former; otherwise fail with `"No JSON found in response"` (a
parse failure of the brace substring surfaces as the JS `SyntaxError`). -/
def extractJSON (text : String) : Except String JSValue :=
  match jsonParseChars text.data with
  | some v => Except.ok v
  | none =>
      let cleaned := jsTrimChars (replaceFence (replaceFenceJson text.data))
      match jsonParseChars cleaned with
      | some v => Except.ok v
      | none =>
          match firstBraceIdx cleaned, lastBraceIdx cleaned with
          | some i, some j =>
              if i < j then
                match jsonParseChars ((cleaned.drop i).take (j + 1 - i)) with
                | some v => Except.ok v
                | none => Except.error "SyntaxError: Unexpected token in JSON"
              else Except.error "No JSON found in response"
          | _, _ => Except.error "No JSON found in response"

/-- Word character for the regex boundary assertion `\b`. -/
def isWordChar (c : Char) : Bool :=
  isDigitChar c || ('a' ≤ c && c ≤ 'z') || ('A' ≤ c && c ≤ 'Z') || c = '_'

/-- ASCII lowercasing for the regex `i` flag. -/
def lowerChar (c : Char) : Char :=
  if 'A' ≤ c && c ≤ 'Z' then Char.ofNat (c.toNat + 32) else c

/-- Case-insensitive literal match; returns the rest after the match. -/
def matchCI : List Char → List Char → Option (List Char)
  | [], cs => some cs
  | _ :: _, [] => none
  | p :: ps, c :: cs => if lowerChar c = lowerChar p then matchCI ps cs else none

/-- One alternative of the source regex `/\b(5\\d{2}|UNAVAILABLE|timeout)\b/i`
(src/api/index.ts:219, 268) matched at the current position. Note the
first alternative: inside a JS regex literal, `\\` is an escaped backslash,
so `5\\d{2}` matches the four literal characters `5`, `\`, `d`, `d` — not a
`5` followed by two digits. All three alternatives begin and end with word
characters, so the surrounding `\b` assertions reduce to the neighbour
characters being non-word (or absent). -/
def transientAltAt (cs : List Char) : Option (List Char) :=
  match matchCI ['5', '\\', 'd', 'd'] cs with
  | some r => some r
  | none =>
      match matchCI "unavailable".data cs with
      | some r => some r
      | none => matchCI "timeout".data cs

/-- Scan for a boundary-delimited alternative match anywhere in the text;
`prev` is the character before the current position. -/
def transientScan : List Char → Option Char → Bool
  | [], _ => false
  | c :: cs, prev =>
      let boundaryBefore :=
        match prev with
        | none => true
        | some p => !isWordChar p
      let hereMatch :=
        boundaryBefore &&
          match transientAltAt (c :: cs) with
          | some rest =>
              match rest with
              | [] => true
              | r :: _ => !isWordChar r
          | none => false
      hereMatch || transientScan cs (some c)

/-- The source's transient-failure classification
`/\b(5\\d{2}|UNAVAILABLE|timeout)\b/i.test(msg)`. -/
def transientTest (msg : String) : Bool :=
  transientScan msg.data none

/-- A model/key candidate of the fallback orchestrator. -/
structure Candidate where
  model : String
  key : String
deriving DecidableEq

/-- One analysis attempt (the body of the inner try at
src/api/index.ts:211-215): the upstream call (abstracted as an oracle from
candidate index and attempt index to either raw reply text or an error
message, since the network is outside the program), then JSON extraction,
then normalization. -/
def attemptOnce (call : ℕ → ℕ → Except String String) (ci ai : ℕ) :
    Except String AnalysisResult := do
  let raw ← call ci ai
  let json ← extractJSON raw
  normalizeAnalysis json

/-- The candidate loop with its per-candidate retry (src/api/index.ts:207-231):
for each candidate, attempt once; on an error whose message tests transient,
wait (not modelled — time-free) and retry exactly once; a second failure or a
non-transient failure records the error and advances to the next candidate;
exhaustion throws the last error, or the generic message when none was
recorded. Returns the outcome together with the trace of (candidate, attempt)
indices actually executed. -/
def runCandidates (call : ℕ → ℕ → Except String String) :
    ℕ → List Candidate → Option String → Except String AnalysisResult × List (ℕ × ℕ)
  | _, [], lastErr => (.error (lastErr.getD "All model candidates failed"), [])
  | ci, _ :: rest, _lastErr =>
      match attemptOnce call ci 0 with
      | .ok v => (.ok v, [(ci, 0)])
      | .error m =>
          if transientTest m then
            match attemptOnce call ci 1 with
            | .ok v => (.ok v, [(ci, 0), (ci, 1)])
            | .error m2 =>
                let r := runCandidates call (ci + 1) rest (some m2)
                (r.1, (ci, 0) :: (ci, 1) :: r.2)
          else
            let r := runCandidates call (ci + 1) rest (some m)
            (r.1, (ci, 0) :: r.2)

/-- The environment variables the two endpoints read. -/
structure Env where
  sumopodGeminiKey : Option String
  sumopodGpt5Key : Option String
  sumopodKey : Option String

/-- JS `a || b` on possibly-unset string environment variables (an unset
variable is `undefined` and an empty string is falsy). -/
def jsOrStr (a b : Option String) : Option String :=
  match a with
  | some s => if s = "" then b else some s
  | none => b

/-- JS truthiness of a possibly-unset string. -/
def truthyKey : Option String → Bool
  | some s => !(s == "")
  | none => false

/-- An HTTP response of the embedded endpoints: a JSON-serialized analysis
result, or an error body with a message. -/
inductive HttpResp where
  | ok (status : ℕ) (result : AnalysisResult)
  | err (status : ℕ) (message : String)
deriving DecidableEq

/-- Candidate list of `/api/analyze-image` (src/api/index.ts:197-204): both
Gemini variants when a Gemini key is available, then GPT-5-nano when a GPT
key is available. -/
def imageCandidates (keyGemini keyGpt : Option String) : List Candidate :=
  (if truthyKey keyGemini then
    [{ model := "gemini/gemini-2.0-flash", key := keyGemini.getD "" },
     { model := "gemini/gemini-1.5-flash", key := keyGemini.getD "" }]
  else []) ++
  (if truthyKey keyGpt then [{ model := "gpt-5-nano", key := keyGpt.getD "" }] else [])

/-- Candidate list of `/api/analyze-camera` (src/api/index.ts:253-255):
GPT-5-nano first, then the first Gemini variant. -/
def cameraCandidates (keyGpt keyGemini : Option String) : List Candidate :=
  (if truthyKey keyGpt then [{ model := "gpt-5-nano", key := keyGpt.getD "" }] else []) ++
  (if truthyKey keyGemini then
    [{ model := "gemini/gemini-2.0-flash", key := keyGemini.getD "" }]
  else [])

/-- The `/api/analyze-image` handler (src/api/index.ts:184-238): reject a falsy
`dataURL` with 400; reject a wholly-unconfigured key set with 500; otherwise
run the candidate loop and answer 200 with the normalized result or 500 with
the propagated error message. -/
def analyzeImage (env : Env) (dataURL : JSValue) (call : ℕ → ℕ → Except String String) :
    HttpResp :=
  if dataURL.falsy then .err 400 "dataURL is required"
  else
    let keyGemini := jsOrStr env.sumopodGeminiKey env.sumopodKey
    let keyGpt := jsOrStr env.sumopodGpt5Key env.sumopodKey
    if !truthyKey keyGemini && !truthyKey keyGpt then
      .err 500 "Sumopod API keys not configured"
    else
      match (runCandidates call 0 (imageCandidates keyGemini keyGpt) none).1 with
      | .ok v => .ok 200 v
      | .error m => .err 500 m

/-- The `/api/analyze-camera` handler (src/api/index.ts:241-286): identical
mechanism with the camera candidate ordering. -/
def analyzeCamera (env : Env) (dataURL : JSValue) (call : ℕ → ℕ → Except String String) :
    HttpResp :=
  if dataURL.falsy then .err 400 "dataURL is required"
  else
    let keyGpt := jsOrStr env.sumopodGpt5Key env.sumopodKey
    let keyGemini := jsOrStr env.sumopodGeminiKey env.sumopodKey
    if !truthyKey keyGpt && !truthyKey keyGemini then
      .err 500 "Sumopod API keys not configured"
    else
      match (runCandidates call 0 (cameraCandidates keyGpt keyGemini) none).1 with
      | .ok v => .ok 200 v
      | .error m => .err 500 m

/-- Orientation enum back to its JS string. -/
def orientStr : Orient → String
  | .portrait => "portrait"
  | .landscape => "landscape"
  | .square => "square"

/-- The JS object the source builds for one normalized item (the shape
`res.json` serializes), used to state idempotence. -/
def FoodItem.toJS (i : FoodItem) : JSValue :=
  .obj [("label", .str i.label),
        ("confidence", .num (.finite i.confidence)),
        ("serving_est_g", .num (.finite i.serving_est_g)),
        ("bbox_norm", .obj [("x", .num (.finite i.bbox_norm.x)),
                            ("y", .num (.finite i.bbox_norm.y)),
                            ("w", .num (.finite i.bbox_norm.w)),
                            ("h", .num (.finite i.bbox_norm.h))]),
        ("nutrition", .obj [
          ("calories_kcal", .num (.finite i.nutrition.calories_kcal)),
          ("macros", .obj [("protein_g", .num (.finite i.nutrition.macros.protein_g)),
                           ("carbs_g", .num (.finite i.nutrition.macros.carbs_g)),
                           ("fat_g", .num (.finite i.nutrition.macros.fat_g)),
                           ("fiber_g", .num (.finite i.nutrition.macros.fiber_g)),
                           ("sugar_g", .num (.finite i.nutrition.macros.sugar_g))]),
          ("micros", .obj [("sodium_mg", .num (.finite i.nutrition.micros.sodium_mg)),
                           ("potassium_mg", .num (.finite i.nutrition.micros.potassium_mg)),
                           ("calcium_mg", .num (.finite i.nutrition.micros.calcium_mg)),
                           ("iron_mg", .num (.finite i.nutrition.micros.iron_mg)),
                           ("vitamin_a_mcg", .num (.finite i.nutrition.micros.vitamin_a_mcg)),
                           ("vitamin_c_mg", .num (.finite i.nutrition.micros.vitamin_c_mg)),
                           ("cholesterol_mg", .num (.finite i.nutrition.micros.cholesterol_mg))]),
          ("allergens", .arr (i.nutrition.allergens.map JSValue.str))])]

/-- The JS object the source returns for a normalized result (the `notes`
property is present but `undefined` when absent, exactly as in the returned
object literal). -/
def AnalysisResult.toJS (r : AnalysisResult) : JSValue :=
  .obj [("image_meta", .obj [("width", .num (.finite r.image_meta.width)),
                             ("height", .num (.finite r.image_meta.height)),
                             ("orientation", .str (orientStr r.image_meta.orientation))]),
        ("composition", .arr (r.composition.map FoodItem.toJS)),
        ("totals", .obj [
          ("serving_total_g", .num (.finite r.totals.serving_total_g)),
          ("calories_kcal", .num (.finite r.totals.calories_kcal)),
          ("macros", .obj [("protein_g", .num (.finite r.totals.macros.protein_g)),
                           ("carbs_g", .num (.finite r.totals.macros.carbs_g)),
                           ("fat_g", .num (.finite r.totals.macros.fat_g)),
                           ("fiber_g", .num (.finite r.totals.macros.fiber_g)),
                           ("sugar_g", .num (.finite r.totals.macros.sugar_g))]),
          ("micros", .obj [("sodium_mg", .num (.finite r.totals.micros.sodium_mg)),
                           ("potassium_mg", .num (.finite r.totals.micros.potassium_mg)),
                           ("calcium_mg", .num (.finite r.totals.micros.calcium_mg)),
                           ("iron_mg", .num (.finite r.totals.micros.iron_mg)),
                           ("vitamin_a_mcg", .num (.finite r.totals.micros.vitamin_a_mcg)),
                           ("vitamin_c_mg", .num (.finite r.totals.micros.vitamin_c_mg)),
                           ("cholesterol_mg", .num (.finite r.totals.micros.cholesterol_mg))]),
          ("allergens", .arr (r.totals.allergens.map JSValue.str))]),
        ("notes", match r.notes with
          | some s => .str s
          | none => .undefined)]

/-- The provided-totals value the normalizer works from. -/
def totalsProvidedOf (raw : JSValue) : JSValue :=
  jsNullish (raw.getOpt "totals") (.obj [])

/-- The normalized items of an input. -/
def normItemsOf (raw : JSValue) : List FoodItem :=
  (rawComposition raw).map normItem

/-- The value coerces inside the closed range, or fails to coerce (NaN or an
infinity), in which case the in-range default applies. -/
def coercesWithin (v : JSValue) (lo hi : ℚ) : Prop :=
  match coerceNum v with
  | .finite q => lo ≤ q ∧ q ≤ hi
  | _ => True

/-- The value coerces to at least `lo`, or fails to coerce. -/
def coercesAtLeast (v : JSValue) (lo : ℚ) : Prop :=
  match coerceNum v with
  | .finite q => lo ≤ q
  | _ => True

/-- The rest begins with a JSON structural delimiter (or is empty): the
contexts in which a serialized value is followed by more input. -/
def isDelimNext : List Char → Bool
  | [] => true
  | c :: _ => c = ',' || c = ']' || c = '\x7d'

/-- Concrete input: two items with 100 and 50 calories and a provided totals
object whose `calories_kcal` is `null`. -/
def cexTotalsNullInput : JSValue :=
  .obj [("composition", .arr
          [.obj [("nutrition", .obj [("calories_kcal", .num (.finite 100))])],
           .obj [("nutrition", .obj [("calories_kcal", .num (.finite 50))])]]),
        ("totals", .obj [("calories_kcal", .null)])]

/-- Concrete input: one item with out-of-range confidence, negative serving
estimate and an out-of-range bounding-box coordinate. -/
def cexOutOfRangeInput : JSValue :=
  .obj [("composition", .arr
          [.obj [("confidence", .num (.finite 5)),
                 ("serving_est_g", .num (.finite (-5))),
                 ("bbox_norm", .obj [("x", .num (.finite 7))])]])]

/-- Concrete JSON value whose string content contains a markdown fence. -/
def cexFenceValue : JSValue := .obj [("a", .str "```")]

/-- An optional chain that did not produce `undefined` coincides with the
strict access, which in particular does not throw. -/
theorem get_of_getOpt_ne_undefined (v : JSValue) (k : String)
    (h : v.getOpt k ≠ .undefined) : v.get k = .ok (v.getOpt k) := by
  cases v <;> simp [JSValue.getOpt, JSValue.get] at h ⊢

/-- A nested optional chain that produced a non-`undefined` value certifies
that both strict accesses succeed with the chain's values. -/
theorem get_get_of_chain (v : JSValue) (k1 k2 : String)
    (h : (v.getOpt k1).getOpt k2 ≠ .undefined) :
    v.get k1 = .ok (v.getOpt k1) ∧
      (v.getOpt k1).get k2 = .ok ((v.getOpt k1).getOpt k2) := by
  refine ⟨get_of_getOpt_ne_undefined _ _ ?_, get_of_getOpt_ne_undefined _ _ h⟩
  intro hu
  rw [hu] at h
  simp [JSValue.getOpt] at h

/-- `normItemE` never throws: it returns exactly the pure normalization. -/
theorem normItemE_eq_ok (it : JSValue) : normItemE it = .ok (normItem it) := by
  rcases harr : (it.getOpt "nutrition").getOpt "allergens" with _ | _ | b | n | s | l | fs
  case arr =>
    obtain ⟨h1, h2⟩ := get_get_of_chain it "nutrition" "allergens" (by rw [harr]; intro hc; cases hc)
    simp only [normItemE, harr, JSValue.isArray, if_true, h1, h2, Bind.bind, Except.bind,
      pure, Except.pure]
    simp [normItem, harr]
  all_goals
    simp only [normItemE, harr, JSValue.isArray, Bool.false_eq_true, if_false, Bind.bind,
      Except.bind, pure, Except.pure]
    simp [normItem, harr]

/-- `mapM` of a function that always succeeds is the successful `map`. -/
theorem mapM_eq_ok_map {α β : Type} (g : α → Except String β) (f : α → β)
    (hg : ∀ a, g a = .ok (f a)) : ∀ l : List α, l.mapM g = .ok (l.map f) := by
  intro l
  induction l with
  | nil => rfl
  | cons a t ih =>
      rw [List.mapM_cons, hg a]
      simp only [List.map_cons]
      rw [show (t.mapM g) = .ok (t.map f) from ih]
      rfl

/-- The guarded strict composition read succeeds with the raw composition. -/
theorem compositionRead_eq (raw : JSValue) :
    compositionRead raw = Except.ok (rawComposition raw) := by
  rcases hc : raw.getOpt "composition" with _ | _ | b | n | s | l | fs
  case arr =>
    have h1 : raw.get "composition" = .ok (raw.getOpt "composition") :=
      get_of_getOpt_ne_undefined _ _ (by rw [hc]; intro hu; cases hu)
    simp only [compositionRead, hc, JSValue.isArray, if_true, h1, Bind.bind, Except.bind,
      pure, Except.pure]
    simp [rawComposition, hc]
  all_goals
    simp only [compositionRead, hc, JSValue.isArray, Bool.false_eq_true, if_false,
      pure, Except.pure]
    simp [rawComposition, hc]

/-- The guarded strict allergens read on the provided totals succeeds with the
value the pure normalizer uses. -/
theorem allergensRead_eq (tp : JSValue) (items : List FoodItem) :
    allergensRead tp (itemAllergenUnion items) = Except.ok (normTotals tp items).allergens := by
  rcases hc : tp.getOpt "allergens" with _ | _ | b | n | s | l | fs
  case arr =>
    have h1 : tp.get "allergens" = .ok (tp.getOpt "allergens") :=
      get_of_getOpt_ne_undefined _ _ (by rw [hc]; intro hu; cases hu)
    simp only [allergensRead, hc, JSValue.isArray, if_true, h1, Bind.bind, Except.bind,
      pure, Except.pure]
    simp [normTotals, hc]
  all_goals
    simp only [allergensRead, hc, JSValue.isArray, Bool.false_eq_true, if_false,
      pure, Except.pure]
    simp [normTotals, hc]

/-- The guarded strict orientation read succeeds with the pure orientation. -/
theorem orientationRead_eq (raw : JSValue) :
    orientationRead raw = Except.ok (normImageMeta raw).orientation := by
  by_cases hg : isOrientStr ((raw.getOpt "image_meta").getOpt "orientation")
  · have hne : (raw.getOpt "image_meta").getOpt "orientation" ≠ .undefined := by
      intro hu
      rw [hu] at hg
      simp [isOrientStr] at hg
    obtain ⟨h1, h2⟩ := get_get_of_chain raw "image_meta" "orientation" hne
    simp only [orientationRead, hg, if_true, h1, h2, Bind.bind, Except.bind, pure, Except.pure]
    simp [normImageMeta, hg]
  · simp only [orientationRead, hg, if_false, pure, Except.pure]
    simp [normImageMeta, hg]

/-- The normalizer is total: every strict access is guarded, so
`normalizeAnalysis` always succeeds, with the value of `normAnalysisFun`. -/
theorem normalizeAnalysis_eq_ok (raw : JSValue) :
    normalizeAnalysis raw = .ok (normAnalysisFun raw) := by
  rw [normalizeAnalysis, orientationRead_eq, compositionRead_eq]
  simp only [Except.bind]
  rw [mapM_eq_ok_map normItemE normItem normItemE_eq_ok]
  simp only [Except.bind]
  rw [allergensRead_eq]
  simp only [Except.bind]
  rfl

/-- C2: the schema normalizer is total — for every input value whatsoever it
returns (never throws) a fully-populated `AnalysisResult` (the type of
`normAnalysisFun`: populated `image_meta`, a sequence of fully-populated
`FoodItem`s, a fixed-shape `totals`, and optional `notes`); the exception-
aware model always succeeds with that value. -/
theorem claim_C2_normalizer_total (raw : JSValue) :
    normalizeAnalysis raw = Except.ok (normAnalysisFun raw) :=
  normalizeAnalysis_eq_ok raw

/-- C2 witness: the normalizer succeeds at a concrete degenerate input. -/
theorem claim_C2_normalizer_total_witness :
    normalizeAnalysis .null = Except.ok (normAnalysisFun .null) :=
  claim_C2_normalizer_total .null

/-- C3 counterexample: with items summing to 150 calories and a provided
`totals.calories_kcal` of `null` — which is neither a finite number nor a
numeric string, so the claim requires the sum 150 — the code coerces `null`
to 0 and uses it. -/
theorem claim_C3_counterexample :
    (normAnalysisFun cexTotalsNullInput).totals.calories_kcal = 0 ∧
    sumBy (fun i => i.nutrition.calories_kcal) (normItemsOf cexTotalsNullInput) = 150 ∧
    (0 : ℚ) ≠ 150 := by
  refine ⟨rfl, ?_, by norm_num⟩
  show List.foldl _ _ _ = _
  norm_num [cexTotalsNullInput, normItemsOf, rawComposition, JSValue.getOpt, List.find?,
    normItem, List.foldl, toNumber, coerceNum]

/-- C3 (amended): each numeric totals field equals the caller-supplied value
coerced by the JS numeric conversion whenever that conversion is finite —
which also uses `null` as 0, booleans as 0/1 and singleton numeric arrays as
their element — and otherwise the field-wise sum over the normalized items;
`totals.allergens` equals the caller-supplied sequence coerced element-wise
to strings when it is a sequence, and otherwise the deduplicated union of
the normalized items' allergen lists. -/
theorem claim_C3_totals_derivation (raw : JSValue) :
    ((normAnalysisFun raw).totals.serving_total_g =
      match coerceNum ((totalsProvidedOf raw).getOpt "serving_total_g") with
      | .finite q => q
      | _ => sumBy (fun i => i.serving_est_g) (normItemsOf raw)) ∧
    ((normAnalysisFun raw).totals.calories_kcal =
      match coerceNum ((totalsProvidedOf raw).getOpt "calories_kcal") with
      | .finite q => q
      | _ => sumBy (fun i => i.nutrition.calories_kcal) (normItemsOf raw)) ∧
    ((normAnalysisFun raw).totals.macros.protein_g =
      match coerceNum (((totalsProvidedOf raw).getOpt "macros").getOpt "protein_g") with
      | .finite q => q
      | _ => sumBy (fun i => i.nutrition.macros.protein_g) (normItemsOf raw)) ∧
    ((normAnalysisFun raw).totals.macros.carbs_g =
      match coerceNum (((totalsProvidedOf raw).getOpt "macros").getOpt "carbs_g") with
      | .finite q => q
      | _ => sumBy (fun i => i.nutrition.macros.carbs_g) (normItemsOf raw)) ∧
    ((normAnalysisFun raw).totals.macros.fat_g =
      match coerceNum (((totalsProvidedOf raw).getOpt "macros").getOpt "fat_g") with
      | .finite q => q
      | _ => sumBy (fun i => i.nutrition.macros.fat_g) (normItemsOf raw)) ∧
    ((normAnalysisFun raw).totals.macros.fiber_g =
      match coerceNum (((totalsProvidedOf raw).getOpt "macros").getOpt "fiber_g") with
      | .finite q => q
      | _ => sumBy (fun i => i.nutrition.macros.fiber_g) (normItemsOf raw)) ∧
    ((normAnalysisFun raw).totals.macros.sugar_g =
      match coerceNum (((totalsProvidedOf raw).getOpt "macros").getOpt "sugar_g") with
      | .finite q => q
      | _ => sumBy (fun i => i.nutrition.macros.sugar_g) (normItemsOf raw)) ∧
    ((normAnalysisFun raw).totals.micros.sodium_mg =
      match coerceNum (((totalsProvidedOf raw).getOpt "micros").getOpt "sodium_mg") with
      | .finite q => q
      | _ => sumBy (fun i => i.nutrition.micros.sodium_mg) (normItemsOf raw)) ∧
    ((normAnalysisFun raw).totals.micros.potassium_mg =
      match coerceNum (((totalsProvidedOf raw).getOpt "micros").getOpt "potassium_mg") with
      | .finite q => q
      | _ => sumBy (fun i => i.nutrition.micros.potassium_mg) (normItemsOf raw)) ∧
    ((normAnalysisFun raw).totals.micros.calcium_mg =
      match coerceNum (((totalsProvidedOf raw).getOpt "micros").getOpt "calcium_mg") with
      | .finite q => q
      | _ => sumBy (fun i => i.nutrition.micros.calcium_mg) (normItemsOf raw)) ∧
    ((normAnalysisFun raw).totals.micros.iron_mg =
      match coerceNum (((totalsProvidedOf raw).getOpt "micros").getOpt "iron_mg") with
      | .finite q => q
      | _ => sumBy (fun i => i.nutrition.micros.iron_mg) (normItemsOf raw)) ∧
    ((normAnalysisFun raw).totals.micros.vitamin_a_mcg =
      match coerceNum (((totalsProvidedOf raw).getOpt "micros").getOpt "vitamin_a_mcg") with
      | .finite q => q
      | _ => sumBy (fun i => i.nutrition.micros.vitamin_a_mcg) (normItemsOf raw)) ∧
    ((normAnalysisFun raw).totals.micros.vitamin_c_mg =
      match coerceNum (((totalsProvidedOf raw).getOpt "micros").getOpt "vitamin_c_mg") with
      | .finite q => q
      | _ => sumBy (fun i => i.nutrition.micros.vitamin_c_mg) (normItemsOf raw)) ∧
    ((normAnalysisFun raw).totals.micros.cholesterol_mg =
      match coerceNum (((totalsProvidedOf raw).getOpt "micros").getOpt "cholesterol_mg") with
      | .finite q => q
      | _ => sumBy (fun i => i.nutrition.micros.cholesterol_mg) (normItemsOf raw)) ∧
    ((normAnalysisFun raw).totals.allergens =
      match (totalsProvidedOf raw).getOpt "allergens" with
      | .arr l => l.map jsToString
      | _ => itemAllergenUnion (normItemsOf raw)) :=
  ⟨rfl, rfl, rfl, rfl, rfl, rfl, rfl, rfl, rfl, rfl, rfl, rfl, rfl, rfl, rfl⟩

/-- C4 counterexample: the claim names `null` and booleans among the values
that must take the documented default, but the code coerces `null` to 0 and
`true` to 1 and uses those; at the schema level a `null` confidence becomes
0, not the documented default 0.5. -/
theorem claim_C4_counterexample :
    toNumber .null (1/2) = 0 ∧
    toNumber (.bool true) 0 = 1 ∧
    (normAnalysisFun (.obj [("composition", .arr [.obj [("confidence", .null)]])])).composition.map
      (fun i => i.confidence) = [0] ∧
    (0 : ℚ) ≠ 1/2 := by
  refine ⟨by decide, rfl, rfl, by norm_num⟩

/-- C4 (amended): a numeric field uses `v` itself when `v` is a finite number;
a string is used via the JS string-to-number conversion when that is finite;
`null` is used as 0, `true` as 1, `false` as 0, and an array via its joined
string when that converts to a finite number; only values whose JS numeric
coercion is NaN or an infinity — `undefined`, NaN, the infinities,
non-numeric strings, plain objects — fall back to the documented default
(0.5 for confidence, 0 elsewhere). -/
theorem claim_C4_numeric_coercion :
    (∀ q d, toNumber (.num (.finite q)) d = q) ∧
    (∀ d, toNumber (.num .nan) d = d) ∧
    (∀ d, toNumber (.num .posInf) d = d) ∧
    (∀ d, toNumber (.num .negInf) d = d) ∧
    (∀ d, toNumber .undefined d = d) ∧
    (∀ d, toNumber .null d = 0) ∧
    (∀ b d, toNumber (.bool b) d = if b then 1 else 0) ∧
    (∀ s d, toNumber (.str s) d =
      match jsStringToNumber s with
      | .finite q => q
      | _ => d) ∧
    (∀ fs d, toNumber (.obj fs) d = d) ∧
    (∀ l d, toNumber (.arr l) d =
      match jsStringToNumber (jsJoinElems l) with
      | .finite q => q
      | _ => d) ∧
    (∀ it, (normItem it).confidence = toNumber (it.getOpt "confidence") (1/2)) := by
  refine ⟨fun q d => rfl, fun d => rfl, fun d => rfl, fun d => rfl, fun d => rfl, fun d => rfl,
    fun b d => ?_, fun s d => rfl, fun fs d => rfl, fun l d => rfl, fun it => rfl⟩
  cases b <;> rfl

/-- C10: a missing or `null` label normalizes to `"item"`, any other value is
coerced by the JS `String` conversion, and every normalized item's label is
produced this way (so it is always a present string). -/
theorem claim_C10_label_default :
    (∀ raw, (normAnalysisFun raw).composition = (rawComposition raw).map normItem) ∧
    (∀ it : JSValue, (normItem it).label =
      match it.getOpt "label" with
      | .null => "item"
      | .undefined => "item"
      | v => jsToString v) := by
  refine ⟨fun raw => rfl, fun it => ?_⟩
  rcases h : it.getOpt "label" with _ | _ | b | n | s | l | fs <;>
    simp [normItem, jsNullish, h, jsToString]

/-- A coercion constrained to a closed range bounds the coerced-or-default
value whenever the default lies in the range. -/
theorem toNumber_mem_of_coercesWithin (v : JSValue) (lo hi d : ℚ)
    (h : coercesWithin v lo hi) (hd : lo ≤ d ∧ d ≤ hi) :
    lo ≤ toNumber v d ∧ toNumber v d ≤ hi := by
  unfold coercesWithin at h
  unfold toNumber
  rcases hc : coerceNum v with q | _ | _ | _ <;> rw [hc] at h
  exacts [h, hd, hd, hd]

/-- A coercion constrained from below bounds the coerced-or-default value
whenever the default satisfies the bound. -/
theorem toNumber_le_of_coercesAtLeast (v : JSValue) (lo d : ℚ)
    (h : coercesAtLeast v lo) (hd : lo ≤ d) :
    lo ≤ toNumber v d := by
  unfold coercesAtLeast at h
  unfold toNumber
  rcases hc : coerceNum v with q | _ | _ | _ <;> rw [hc] at h
  exacts [h, hd, hd, hd]

/-- C6 counterexample: the normalizer does not clamp — an item supplied with
confidence 5, serving estimate −5 and bounding-box x-coordinate 7 keeps those
values, violating every claimed range. -/
theorem claim_C6_counterexample :
    ((normAnalysisFun cexOutOfRangeInput).composition.map fun i => i.confidence) = [5] ∧
    ¬ ((5 : ℚ) ≤ 1) ∧
    ((normAnalysisFun cexOutOfRangeInput).composition.map fun i => i.serving_est_g) = [-5] ∧
    ¬ ((0 : ℚ) ≤ -5) ∧
    ((normAnalysisFun cexOutOfRangeInput).composition.map fun i => i.bbox_norm.x) = [7] ∧
    ¬ ((7 : ℚ) ≤ 1) :=
  ⟨rfl, by norm_num, rfl, by norm_num, rfl, by norm_num⟩

/-- C6 (amended): the composition is the item-wise normalization, and a
normalized item satisfies the §3 ranges (confidence in [0,1], serving
estimate non-negative, bbox coordinates in [0,1]) whenever each supplied
field either fails numeric coercion — so the in-range default applies — or
coerces into the range; values are passed through without clamping. -/
theorem claim_C6_item_ranges :
    (∀ raw, (normAnalysisFun raw).composition = (rawComposition raw).map normItem) ∧
    (∀ it : JSValue,
      coercesWithin (it.getOpt "confidence") 0 1 →
      coercesAtLeast (it.getOpt "serving_est_g") 0 →
      coercesWithin ((it.getOpt "bbox_norm").getOpt "x") 0 1 →
      coercesWithin ((it.getOpt "bbox_norm").getOpt "y") 0 1 →
      coercesWithin ((it.getOpt "bbox_norm").getOpt "w") 0 1 →
      coercesWithin ((it.getOpt "bbox_norm").getOpt "h") 0 1 →
      0 ≤ (normItem it).confidence ∧ (normItem it).confidence ≤ 1 ∧
        0 ≤ (normItem it).serving_est_g ∧
        0 ≤ (normItem it).bbox_norm.x ∧ (normItem it).bbox_norm.x ≤ 1 ∧
        0 ≤ (normItem it).bbox_norm.y ∧ (normItem it).bbox_norm.y ≤ 1 ∧
        0 ≤ (normItem it).bbox_norm.w ∧ (normItem it).bbox_norm.w ≤ 1 ∧
        0 ≤ (normItem it).bbox_norm.h ∧ (normItem it).bbox_norm.h ≤ 1) := by
  refine ⟨fun raw => rfl, fun it hc hs hx hy hw hh => ?_⟩
  have hconf := toNumber_mem_of_coercesWithin _ 0 1 (1/2) hc (by norm_num)
  have hserv := toNumber_le_of_coercesAtLeast _ 0 0 hs le_rfl
  have hbx := toNumber_mem_of_coercesWithin _ 0 1 0 hx (by norm_num)
  have hby := toNumber_mem_of_coercesWithin _ 0 1 0 hy (by norm_num)
  have hbw := toNumber_mem_of_coercesWithin _ 0 1 0 hw (by norm_num)
  have hbh := toNumber_mem_of_coercesWithin _ 0 1 0 hh (by norm_num)
  exact ⟨hconf.1, hconf.2, hserv, hbx.1, hbx.2, hby.1, hby.2, hbw.1, hbw.2, hbh.1, hbh.2⟩

/-- C6 witness: at the empty item every field fails coercion, every
hypothesis holds trivially, and the defaults satisfy the ranges. -/
theorem claim_C6_item_ranges_witness :
    0 ≤ (normItem (.obj [])).confidence ∧ (normItem (.obj [])).confidence ≤ 1 ∧
      0 ≤ (normItem (.obj [])).serving_est_g ∧
      0 ≤ (normItem (.obj [])).bbox_norm.x ∧ (normItem (.obj [])).bbox_norm.x ≤ 1 ∧
      0 ≤ (normItem (.obj [])).bbox_norm.y ∧ (normItem (.obj [])).bbox_norm.y ≤ 1 ∧
      0 ≤ (normItem (.obj [])).bbox_norm.w ∧ (normItem (.obj [])).bbox_norm.w ≤ 1 ∧
      0 ≤ (normItem (.obj [])).bbox_norm.h ∧ (normItem (.obj [])).bbox_norm.h ≤ 1 :=
  claim_C6_item_ranges.2 (.obj []) trivial trivial trivial trivial trivial trivial

/-- C9: on both operations a `dataURL` equal to the empty string is rejected
exactly like an absent one — the guard tests JS falsiness — with the same
400 response and message `"dataURL is required"`, for every environment and
every upstream behavior. -/
theorem claim_C9_empty_dataURL (env : Env) (call : ℕ → ℕ → Except String String) :
    analyzeImage env (.str "") call = .err 400 "dataURL is required" ∧
    analyzeImage env .undefined call = .err 400 "dataURL is required" ∧
    analyzeCamera env (.str "") call = .err 400 "dataURL is required" ∧
    analyzeCamera env .undefined call = .err 400 "dataURL is required" :=
  ⟨rfl, rfl, rfl, rfl⟩

/-- C1 (the code evaluated at the failing input): the source regex
`/\b(5\\d{2}|UNAVAILABLE|timeout)\b/i` contains a doubled backslash, so its
first alternative matches the literal characters `5\dd` rather than a 5xx
status code; a first attempt failing with a message containing `503` is NOT
classified transient and is not retried (the candidate loop executes exactly
one attempt per candidate), while the `UNAVAILABLE` and `timeout` markers and
the literal text `5\dd` are retried. -/
theorem claim_C1_regex_503_not_retried :
    transientTest "Sumopod API error: 503 - busy" = false ∧
    transientTest "error 400 bad request" = false ∧
    transientTest "saw 5\\dd there" = true ∧
    transientTest "upstream UNAVAILABLE" = true ∧
    transientTest "request timeout" = true ∧
    (runCandidates (fun _ _ => .error "Sumopod API error: 503 - busy") 0
      (imageCandidates (some "gk") none) none).2 = [(0, 0), (1, 0)] ∧
    (runCandidates (fun _ _ => .error "upstream UNAVAILABLE") 0
      (imageCandidates (some "gk") none) none).2 = [(0, 0), (0, 1), (1, 0), (1, 1)] :=
  ⟨rfl, rfl, rfl, rfl, rfl, rfl, rfl⟩

/-- Mapping the JS `String` conversion over a list of string values is the
identity. -/
theorem map_jsToString_str (as : List String) :
    (as.map JSValue.str).map jsToString = as := by
  induction as with
  | nil => rfl
  | cons a t ih => simp [jsToString, ih]

/-- Composition form of `map_jsToString_str`. -/
theorem map_jsToString_str_comp (as : List String) :
    as.map (jsToString ∘ JSValue.str) = as := by
  rw [← List.map_map]
  exact map_jsToString_str as

/-- A fully-normalized item is a fixed point of the item normalizer. -/
theorem normItem_toJS (i : FoodItem) : normItem i.toJS = i := by
  rcases i with ⟨label, conf, serv, ⟨bx, by_, bw, bh⟩,
    ⟨cal, ⟨mp, mc, mf, mfi, msu⟩, ⟨u1, u2, u3, u4, u5, u6, u7⟩, al⟩⟩
  simp [normItem, FoodItem.toJS, JSValue.getOpt, jsNullish, jsToString, toNumber, coerceNum,
    map_jsToString_str, map_jsToString_str_comp]

/-- Item-wise renormalization of serialized normalized items is the
identity. -/
theorem map_normItem_toJS (l : List FoodItem) :
    (l.map FoodItem.toJS).map normItem = l := by
  induction l with
  | nil => rfl
  | cons a t ih => simp [normItem_toJS, ih]

/-- Composition form of `map_normItem_toJS`. -/
theorem map_normItem_toJS_comp (l : List FoodItem) :
    l.map (normItem ∘ FoodItem.toJS) = l := by
  rw [← List.map_map]
  exact map_normItem_toJS l

/-- Every fully-normalized result is a fixed point of the normalizer. -/
theorem normAnalysisFun_toJS (r : AnalysisResult) : normAnalysisFun r.toJS = r := by
  rcases r with ⟨⟨w, h, o⟩, comp, ⟨ts, tc, ⟨mp, mc, mf, mfi, msu⟩,
    ⟨u1, u2, u3, u4, u5, u6, u7⟩, tal⟩, notes⟩
  cases o <;> cases notes <;>
    simp [normAnalysisFun, AnalysisResult.toJS, normImageMeta, rawComposition, normTotals,
      JSValue.getOpt, jsNullish, isOrientStr, orientFromJS, orientStr, toNumber, coerceNum,
      map_normItem_toJS, map_jsToString_str, map_normItem_toJS_comp, map_jsToString_str_comp]

/-- C8: the normalizer is idempotent — renormalizing the JS object built from
any normalization output returns it unchanged, every fully-normalized
`AnalysisResult` is a fixed point, and the exception-aware normalizer
succeeds on such inputs with the same value. -/
theorem claim_C8_idempotent :
    (∀ raw, normAnalysisFun (AnalysisResult.toJS (normAnalysisFun raw)) = normAnalysisFun raw) ∧
    (∀ r : AnalysisResult, normAnalysisFun r.toJS = r) ∧
    (∀ raw, normalizeAnalysis (AnalysisResult.toJS (normAnalysisFun raw)) =
      Except.ok (normAnalysisFun raw)) := by
  refine ⟨fun raw => normAnalysisFun_toJS _, fun r => normAnalysisFun_toJS r, fun raw => ?_⟩
  rw [normalizeAnalysis_eq_ok, normAnalysisFun_toJS]

/-- Pulling `getLast?` through a cons with nonempty tail. -/
theorem getLast?_cons_ne_nil {α : Type} (a : α) (l : List α) (h : l ≠ []) :
    (a :: l).getLast? = l.getLast? := by
  cases l with
  | nil => exact absurd rfl h
  | cons b t => rfl

/-- A successful `getLast?` certifies nonemptiness. -/
theorem ne_nil_of_getLast?_eq_some {α : Type} {l : List α} {x : α}
    (h : l.getLast? = some x) : l ≠ [] := by
  intro hl
  rw [hl] at h
  cases h

/-- When every attempt fails, the candidate loop fails with the message of
the final attempt it executed (the trace's last entry). -/
theorem runCandidates_all_fail (call : ℕ → ℕ → Except String String)
    (hfail : ∀ ci ai, ∃ m, attemptOnce call ci ai = .error m) :
    ∀ (cands : List Candidate) (ci0 : ℕ) (le : Option String), cands ≠ [] →
      ∃ m ci ai, (runCandidates call ci0 cands le).1 = .error m ∧
        (runCandidates call ci0 cands le).2.getLast? = some (ci, ai) ∧
        attemptOnce call ci ai = .error m := by
  intro cands
  induction cands with
  | nil => intro ci0 le h; exact absurd rfl h
  | cons c rest ih =>
      intro ci0 le _
      obtain ⟨m0, hm0⟩ := hfail ci0 0
      by_cases ht : transientTest m0
      · obtain ⟨m1, hm1⟩ := hfail ci0 1
        have hrun : runCandidates call ci0 (c :: rest) le =
            ((runCandidates call (ci0 + 1) rest (some m1)).1,
              (ci0, 0) :: (ci0, 1) :: (runCandidates call (ci0 + 1) rest (some m1)).2) := by
          rw [runCandidates, hm0]
          simp [ht, hm1]
        cases rest with
        | nil =>
            rw [hrun]
            exact ⟨m1, ci0, 1, by simp [runCandidates], by simp [runCandidates, List.getLast?], hm1⟩
        | cons c2 rest2 =>
            obtain ⟨m, ci, ai, h1, h2, h3⟩ := ih (ci0 + 1) (some m1) (by simp)
            have hne := ne_nil_of_getLast?_eq_some h2
            refine ⟨m, ci, ai, by rw [hrun]; exact h1, ?_, h3⟩
            rw [hrun]
            show ((ci0, 0) :: (ci0, 1) :: _).getLast? = _
            rw [getLast?_cons_ne_nil _ _ (by simp), getLast?_cons_ne_nil _ _ hne]
            exact h2
      · have hrun : runCandidates call ci0 (c :: rest) le =
            ((runCandidates call (ci0 + 1) rest (some m0)).1,
              (ci0, 0) :: (runCandidates call (ci0 + 1) rest (some m0)).2) := by
          rw [runCandidates, hm0]
          simp [ht]
        cases rest with
        | nil =>
            rw [hrun]
            exact ⟨m0, ci0, 0, by simp [runCandidates], by simp [runCandidates, List.getLast?], hm0⟩
        | cons c2 rest2 =>
            obtain ⟨m, ci, ai, h1, h2, h3⟩ := ih (ci0 + 1) (some m0) (by simp)
            have hne := ne_nil_of_getLast?_eq_some h2
            refine ⟨m, ci, ai, by rw [hrun]; exact h1, ?_, h3⟩
            rw [hrun]
            show ((ci0, 0) :: _).getLast? = _
            rw [getLast?_cons_ne_nil _ _ hne]
            exact h2

/-- A truthy key yields a nonempty image candidate list. -/
theorem imageCandidates_ne_nil (a b : Option String)
    (h : truthyKey a = true ∨ truthyKey b = true) : imageCandidates a b ≠ [] := by
  rcases h with h | h <;> simp [imageCandidates, h]

/-- C7: with a truthy `dataURL`, at least one configured API key, and every
candidate attempt failing, `/api/analyze-image` answers 500 carrying the
message of the last attempt the loop executed (the generic
`"All model candidates failed"` message would be used only if no error were
recorded, which cannot happen once a candidate exists); moreover every
response of the handler is either a complete normalized result or an error —
never a partial result. -/
theorem claim_C7_exhaustion :
    (∀ (env : Env) (d : JSValue) (call : ℕ → ℕ → Except String String),
      d.falsy = false →
      (truthyKey (jsOrStr env.sumopodGeminiKey env.sumopodKey) = true ∨
        truthyKey (jsOrStr env.sumopodGpt5Key env.sumopodKey) = true) →
      (∀ ci ai, ∃ m0, attemptOnce call ci ai = Except.error m0) →
      ∃ m ci ai,
        analyzeImage env d call = .err 500 m ∧
        (runCandidates call 0
          (imageCandidates (jsOrStr env.sumopodGeminiKey env.sumopodKey)
            (jsOrStr env.sumopodGpt5Key env.sumopodKey)) none).2.getLast? = some (ci, ai) ∧
        attemptOnce call ci ai = .error m) ∧
    (∀ (env : Env) (d : JSValue) (call : ℕ → ℕ → Except String String),
      (∃ r, analyzeImage env d call = .ok 200 r) ∨
        (∃ code msg, analyzeImage env d call = .err code msg)) := by
  constructor
  · intro env d call hd hkey hfail
    obtain ⟨m, ci, ai, h1, h2, h3⟩ :=
      runCandidates_all_fail call hfail
        (imageCandidates (jsOrStr env.sumopodGeminiKey env.sumopodKey)
          (jsOrStr env.sumopodGpt5Key env.sumopodKey)) 0 none
        (imageCandidates_ne_nil _ _ hkey)
    refine ⟨m, ci, ai, ?_, h2, h3⟩
    have hk : (!truthyKey (jsOrStr env.sumopodGeminiKey env.sumopodKey) &&
        !truthyKey (jsOrStr env.sumopodGpt5Key env.sumopodKey)) = false := by
      rcases hkey with h | h <;> simp [h]
    simp [analyzeImage, hd, hk, h1]
  · intro env d call
    by_cases hf : d.falsy
    · exact Or.inr ⟨400, "dataURL is required", by simp [analyzeImage, hf]⟩
    · simp only [Bool.not_eq_true] at hf
      by_cases hk : (!truthyKey (jsOrStr env.sumopodGeminiKey env.sumopodKey) &&
          !truthyKey (jsOrStr env.sumopodGpt5Key env.sumopodKey)) = true
      · exact Or.inr ⟨500, "Sumopod API keys not configured", by simp [analyzeImage, hf, hk]⟩
      · simp only [Bool.not_eq_true] at hk
        rcases hr : (runCandidates call 0
            (imageCandidates (jsOrStr env.sumopodGeminiKey env.sumopodKey)
              (jsOrStr env.sumopodGpt5Key env.sumopodKey)) none).1 with m | v
        · exact Or.inr ⟨500, m, by simp [analyzeImage, hf, hk, hr]⟩
        · exact Or.inl ⟨v, by simp [analyzeImage, hf, hk, hr]⟩

/-- C7 witness: a single configured Gemini key and an upstream that always
fails with `"boom"` (non-transient) exhausts both Gemini candidates and
surfaces 500 `"boom"`. -/
theorem claim_C7_exhaustion_witness :
    (∃ m ci ai,
      analyzeImage ⟨some "gk", none, none⟩ (.str "d") (fun _ _ => Except.error "boom") =
        .err 500 m ∧
      (runCandidates (fun _ _ => Except.error "boom") 0
        (imageCandidates (jsOrStr (some "gk") none) (jsOrStr none none)) none).2.getLast? =
        some (ci, ai) ∧
      attemptOnce (fun _ _ => Except.error "boom") ci ai = .error m) ∧
    analyzeImage ⟨some "gk", none, none⟩ (.str "d") (fun _ _ => Except.error "boom") =
      .err 500 "boom" :=
  ⟨claim_C7_exhaustion.1 _ _ _ rfl (Or.inl rfl) (fun _ _ => ⟨"boom", rfl⟩), rfl⟩

/-- A digit character decodes to its value. -/
theorem digitVal_digitChar (n : ℕ) (h : n < 10) : digitVal (digitChar n) = n := by
  interval_cases n <;> rfl

/-- A digit character passes the digit test. -/
theorem isDigitChar_digitChar (n : ℕ) (h : n < 10) : isDigitChar (digitChar n) = true := by
  interval_cases n <;> rfl

/-- The fueled digit expansion is fuel-invariant above the value. -/
theorem natDigitsFuel_invariant (n : ℕ) :
    ∀ f g, n ≤ f → n ≤ g → natDigitsFuel (f + 1) n = natDigitsFuel (g + 1) n := by
  induction n using Nat.strong_induction_on with
  | _ n ih =>
      intro f g hf hg
      by_cases h : n < 10
      · simp [natDigitsFuel, h]
      · have h10 : 10 ≤ n := le_of_not_lt h
        have hdiv : n / 10 < n := Nat.div_lt_self (by omega) (by omega)
        have hd10 : n / 10 ≤ n - 9 := by omega
        rcases Nat.exists_eq_add_of_le (show 1 ≤ f by omega) with ⟨f', rfl⟩
        rcases Nat.exists_eq_add_of_le (show 1 ≤ g by omega) with ⟨g', rfl⟩
        simp only [natDigitsFuel, h, if_false]
        rw [Nat.add_comm 1 f', Nat.add_comm 1 g', ih (n / 10) hdiv f' g' (by omega) (by omega)]

/-- One-step unfolding of `natDigits`. -/
theorem natDigits_step (n : ℕ) :
    natDigits n = if n < 10 then [digitChar n] else natDigits (n / 10) ++ [digitChar (n % 10)] := by
  by_cases h : n < 10
  · simp [natDigits, natDigitsFuel, h]
  · have h10 : 10 ≤ n := le_of_not_lt h
    have hd : n / 10 < n := Nat.div_lt_self (by omega) (by omega)
    simp only [natDigits, natDigitsFuel, h, if_false]
    rcases Nat.exists_eq_add_of_le (show 1 ≤ n by omega) with ⟨n', hn'⟩
    have : natDigitsFuel n (n / 10) = natDigitsFuel (n' + 1) (n / 10) := by
      rw [hn', Nat.add_comm 1 n']
    rw [this, natDigitsFuel_invariant (n / 10) n' (n / 10) (by omega) le_rfl]
    rfl

/-- The digit expansion is nonempty. -/
theorem natDigits_ne_nil (n : ℕ) : natDigits n ≠ [] := by
  rw [natDigits_step]
  split
  · simp
  · simp

/-- Every character of the digit expansion is a digit. -/
theorem natDigits_all_digits (n : ℕ) : ∀ c ∈ natDigits n, isDigitChar c = true := by
  induction n using Nat.strong_induction_on with
  | _ n ih =>
      rw [natDigits_step]
      by_cases h : n < 10
      · simp only [h, if_true, List.mem_singleton]
        rintro c rfl
        exact isDigitChar_digitChar n h
      · simp only [h, if_false, List.mem_append, List.mem_singleton]
        rintro c (hc | rfl)
        · exact ih (n / 10) (Nat.div_lt_self (by omega) (by omega)) c hc
        · exact isDigitChar_digitChar (n % 10) (Nat.mod_lt n (by omega))

/-- Folding decimal digits from an arbitrary accumulator. -/
theorem foldl_dec_shift (s : ℕ) (ds : List Char) :
    ds.foldl (fun a c => a * 10 + digitVal c) s =
      s * 10 ^ ds.length + foldDecDigits ds := by
  induction ds generalizing s with
  | nil => simp [foldDecDigits]
  | cons c t ih =>
      simp only [List.foldl_cons, foldDecDigits] at ih ⊢
      rw [ih (s * 10 + digitVal c), ih (0 * 10 + digitVal c)]
      ring_nf
      simp [List.length_cons, pow_succ]
      ring

/-- The digit expansion folds back to its value. -/
theorem foldDec_natDigits (n : ℕ) : foldDecDigits (natDigits n) = n := by
  induction n using Nat.strong_induction_on with
  | _ n ih =>
      rw [natDigits_step]
      by_cases h : n < 10
      · simp only [h, if_true, foldDecDigits, List.foldl_cons, List.foldl_nil]
        rw [digitVal_digitChar n h]
        omega
      · simp only [h, if_false, foldDecDigits, List.foldl_append, List.foldl_cons,
          List.foldl_nil]
        have h1 : List.foldl (fun a c => a * 10 + digitVal c) 0 (natDigits (n / 10)) = n / 10 :=
          ih (n / 10) (Nat.div_lt_self (by omega) (by omega))
        rw [h1, digitVal_digitChar (n % 10) (Nat.mod_lt n (by omega))]
        omega

/-- The leading digit of a positive value is not `'0'`. -/
theorem natDigits_headI_ne_zero (n : ℕ) (h : 1 ≤ n) : (natDigits n).headI ≠ '0' := by
  induction n using Nat.strong_induction_on with
  | _ n ih =>
      rw [natDigits_step]
      by_cases h10 : n < 10
      · simp only [h10, if_true, List.headI]
        intro hc
        have : digitVal (digitChar n) = digitVal '0' := by rw [hc]
        rw [digitVal_digitChar n h10] at this
        simp [digitVal] at this
        omega
      · simp only [h10, if_false]
        have hne := natDigits_ne_nil (n / 10)
        have hd : (natDigits (n / 10) ++ [digitChar (n % 10)]).headI = (natDigits (n / 10)).headI := by
          cases hh : natDigits (n / 10) with
          | nil => exact absurd hh hne
          | cons a t => rfl
        rw [hd]
        exact ih (n / 10) (Nat.div_lt_self (by omega) (by omega)) (Nat.one_le_div_iff (by omega) |>.2 (by omega))

/-- `takeWhile`/`dropWhile` split around an all-satisfying prefix followed by
a failing head. -/
theorem takeWhile_dropWhile_append (p : Char → Bool) (a r : List Char)
    (ha : ∀ c ∈ a, p c = true) (hr : ∀ c t, r = c :: t → p c = false) :
    (a ++ r).takeWhile p = a ∧ (a ++ r).dropWhile p = r := by
  induction a with
  | nil =>
      simp only [List.nil_append]
      cases r with
      | nil => simp
      | cons c t =>
          have := hr c t rfl
          simp [List.takeWhile_cons, List.dropWhile_cons, this]
  | cons x a' ih =>
      have hx := ha x (by simp)
      have ih' := ih (fun c hc => ha c (by simp [hc]))
      simp [List.takeWhile_cons, List.dropWhile_cons, hx, ih'.1, ih'.2]

/-- A delimiter-headed rest has no exponent part. -/
theorem parseExponent_delim (r : List Char) (hr : isDelimNext r = true) :
    parseExponent r = none := by
  cases r with
  | nil => rfl
  | cons c t =>
      simp only [isDelimNext, Bool.or_eq_true, decide_eq_true_eq] at hr
      rcases hr with (rfl | rfl) | rfl <;> rfl

/-- A delimiter character is not a digit. -/
theorem isDigitChar_delim (r : List Char) (hr : isDelimNext r = true) :
    ∀ c t, r = c :: t → isDigitChar c = false := by
  intro c t hct
  subst hct
  simp only [isDelimNext, Bool.or_eq_true, decide_eq_true_eq] at hr
  rcases hr with (rfl | rfl) | rfl <;> rfl

/-- Parsing the digit expansion before a delimiter yields the value. -/
theorem parseJNumPos_natDigits (n : ℕ) (r : List Char) (hr : isDelimNext r = true) :
    parseJNumPos (natDigits n ++ r) = some ((n : ℚ), r) := by
  obtain ⟨htake, hdrop⟩ :=
    takeWhile_dropWhile_append isDigitChar (natDigits n) r (natDigits_all_digits n)
      (isDigitChar_delim r hr)
  have hne : (natDigits n).isEmpty = false := by
    cases hh : natDigits n with
    | nil => exact absurd hh (natDigits_ne_nil n)
    | cons a t => rfl
  have hlead : (decide (1 < (natDigits n).length) && decide ((natDigits n).headI = '0')) = false := by
    by_cases hn : n < 10
    · have : natDigits n = [digitChar n] := by rw [natDigits_step]; simp [hn]
      simp [this]
    · have h1 : 1 ≤ n := by omega
      simp [natDigits_headI_ne_zero n h1]
  unfold parseJNumPos
  rw [htake, hdrop]
  simp only [hne, Bool.false_eq_true, if_false, hlead]
  cases r with
  | nil =>
      simp [foldDec_natDigits, parseExponent]
  | cons c t =>
      simp only [isDelimNext, Bool.or_eq_true, decide_eq_true_eq] at hr
      have hexp : parseExponent (c :: t) = none := by
        rcases hr with (rfl | rfl) | rfl <;> rfl
      rcases hr with (rfl | rfl) | rfl <;>
        simp [hexp, foldDec_natDigits]

/-- Parsing the serialized form of an integer-valued rational before a
delimiter yields the value. -/
theorem parseJNum_serNum (q : ℚ) (hden : q.den = 1) (r : List Char) (hr : isDelimNext r = true) :
    parseJNum ((jsNumToString (.finite q)).data ++ r) = some (q, r) := by
  have hq' : ((q.num : ℤ) : ℚ) = q := (Rat.den_eq_one_iff q).1 hden
  have hs : jsNumToString (.finite q) = (if q < 0 then "-" else "") ++ ⟨natDigits q.num.natAbs⟩ := by
    unfold jsNumToString
    simp [hden]
  rw [hs, String.data_append]
  by_cases hneg : q < 0
  · have hnum : q.num ≤ 0 := by
      have : ¬ 0 ≤ q.num := fun hcon => absurd (Rat.num_nonneg.1 hcon) (not_le.2 hneg)
      omega
    simp only [hneg, if_true]
    show parseJNum ('-' :: (natDigits q.num.natAbs ++ r)) = _
    simp only [parseJNum, if_true]
    rw [parseJNumPos_natDigits _ r hr]
    simp only [Option.map_some', Option.some.injEq, Prod.mk.injEq]
    refine ⟨?_, trivial⟩
    rw [← Int.cast_natCast, Int.ofNat_natAbs_of_nonpos hnum, Int.cast_neg, neg_neg, hq']
  · have hnum : 0 ≤ q.num := Rat.num_nonneg.2 (not_lt.1 hneg)
    simp only [hneg, if_false]
    show parseJNum (([] : List Char) ++ (natDigits q.num.natAbs ++ r)) = _
    rw [List.nil_append]
    cases hd : natDigits q.num.natAbs with
    | nil => exact absurd hd (natDigits_ne_nil _)
    | cons c t =>
        have hcd : isDigitChar c = true := natDigits_all_digits _ c (by rw [hd]; simp)
        have hcne : ¬ c = '-' := by
          intro hcc
          rw [hcc] at hcd
          exact absurd hcd (by decide)
        show parseJNum (c :: (t ++ r)) = _
        simp only [parseJNum, hcne, if_false]
        have : c :: (t ++ r) = natDigits q.num.natAbs ++ r := by rw [hd]; rfl
        rw [this, parseJNumPos_natDigits _ r hr]
        have hcast : ((q.num.natAbs : ℕ) : ℚ) = q := by
          rw [← Int.cast_natCast, Int.natAbs_of_nonneg hnum, hq']
        rw [hcast]

/-- A hex digit character decodes to its value. -/
theorem hexVal_hexDigitChar (x : ℕ) (h : x < 16) : hexVal (hexDigitChar x) = x := by
  interval_cases x <;> rfl

/-- A hex digit character passes the hex test. -/
theorem isHexDigitChar_hexDigitChar (x : ℕ) (h : x < 16) :
    isHexDigitChar (hexDigitChar x) = true := by
  interval_cases x <;> rfl

/-- Escaped string bodies parse back to the original characters. -/
theorem parseStrBody_escChars (cs r : List Char) :
    parseStrBody (escChars cs ++ ('"' :: r)) = some (cs, r) := by
  induction cs with
  | nil =>
      rw [show escChars [] = [] from rfl, List.nil_append, parseStrBody.eq_def]
      simp
  | cons c t ih =>
      have hesc : escChars (c :: t) = escapeChar c ++ escChars t := by
        simp [escChars]
      rw [hesc, List.append_assoc]
      by_cases h1 : c = '"'
      · subst h1
        rw [show escapeChar '"' = ['\\', '"'] from rfl]
        rw [show (['\\', '"'] : List Char) ++ (escChars t ++ '"' :: r) =
          '\\' :: '"' :: (escChars t ++ '"' :: r) from rfl]
        rw [parseStrBody.eq_def]
        simp [escDecode, ih]
      · by_cases h2 : c = '\\'
        · subst h2
          rw [show escapeChar '\\' = ['\\', '\\'] from rfl]
          rw [show (['\\', '\\'] : List Char) ++ (escChars t ++ '"' :: r) =
            '\\' :: '\\' :: (escChars t ++ '"' :: r) from rfl]
          rw [parseStrBody.eq_def]
          simp [escDecode, ih]
        · by_cases h3 : c = '\n'
          · subst h3
            rw [show escapeChar '\n' = ['\\', 'n'] from rfl]
            rw [show (['\\', 'n'] : List Char) ++ (escChars t ++ '"' :: r) =
              '\\' :: 'n' :: (escChars t ++ '"' :: r) from rfl]
            rw [parseStrBody.eq_def]
            simp [escDecode, ih]
          · by_cases h4 : c = '\t'
            · subst h4
              rw [show escapeChar '\t' = ['\\', 't'] from rfl]
              rw [show (['\\', 't'] : List Char) ++ (escChars t ++ '"' :: r) =
                '\\' :: 't' :: (escChars t ++ '"' :: r) from rfl]
              rw [parseStrBody.eq_def]
              simp [escDecode, ih]
            · by_cases h5 : c = '\r'
              · subst h5
                rw [show escapeChar '\r' = ['\\', 'r'] from rfl]
                rw [show (['\\', 'r'] : List Char) ++ (escChars t ++ '"' :: r) =
                  '\\' :: 'r' :: (escChars t ++ '"' :: r) from rfl]
                rw [parseStrBody.eq_def]
                simp [escDecode, ih]
              · by_cases h6 : c = Char.ofNat 8
                · subst h6
                  rw [show escapeChar (Char.ofNat 8) = ['\\', 'b'] from rfl]
                  rw [show (['\\', 'b'] : List Char) ++ (escChars t ++ '"' :: r) =
                    '\\' :: 'b' :: (escChars t ++ '"' :: r) from rfl]
                  rw [parseStrBody.eq_def]
                  simp [escDecode, ih]
                · by_cases h7 : c = Char.ofNat 12
                  · subst h7
                    rw [show escapeChar (Char.ofNat 12) = ['\\', 'f'] from rfl]
                    rw [show (['\\', 'f'] : List Char) ++ (escChars t ++ '"' :: r) =
                      '\\' :: 'f' :: (escChars t ++ '"' :: r) from rfl]
                    rw [parseStrBody.eq_def]
                    simp [escDecode, ih]
                  · by_cases h8 : c.toNat < 32
                    · have hesc8 : escapeChar c =
                          ['\\', 'u', '0', '0', hexDigitChar (c.toNat / 16),
                            hexDigitChar (c.toNat % 16)] := by
                        simp [escapeChar, h1, h2, h3, h4, h5, h6, h7, h8]
                      rw [hesc8]
                      have ha : c.toNat / 16 < 16 := by omega
                      have hb : c.toNat % 16 < 16 := by omega
                      rw [show (['\\', 'u', '0', '0', hexDigitChar (c.toNat / 16),
                          hexDigitChar (c.toNat % 16)] : List Char) ++ (escChars t ++ '"' :: r) =
                        '\\' :: 'u' :: '0' :: '0' :: hexDigitChar (c.toNat / 16) ::
                          hexDigitChar (c.toNat % 16) :: (escChars t ++ '"' :: r) from rfl]
                      rw [parseStrBody.eq_def]
                      have hval : ((hexVal '0' * 16 + hexVal '0') * 16 +
                          hexVal (hexDigitChar (c.toNat / 16))) * 16 +
                          hexVal (hexDigitChar (c.toNat % 16)) = c.toNat := by
                        rw [hexVal_hexDigitChar _ ha, hexVal_hexDigitChar _ hb]
                        rw [show hexVal '0' = 0 from rfl]
                        omega
                      simp [isHexDigitChar_hexDigitChar _ ha, isHexDigitChar_hexDigitChar _ hb,
                        ih, hval, Char.ofNat_toNat, show isHexDigitChar '0' = true from rfl]
                    · have hesc9 : escapeChar c = [c] := by
                        simp [escapeChar, h1, h2, h3, h4, h5, h6, h7, h8]
                      rw [hesc9, List.singleton_append, parseStrBody.eq_def]
                      simp [h1, h2, ih]

/-- The serialization of a serializable value starts with a non-whitespace,
non-delimiter character. -/
theorem serVal_head_facts (x : JSValue) (hp : pureJson x = true) :
    ∃ c t, serVal x = c :: t ∧ jsIsWs c = false ∧ c ≠ ']' ∧ c ≠ '\x7d' := by
  cases x with
  | undefined => exact absurd hp (by simp [pureJson])
  | null => exact ⟨'n', ['u', 'l', 'l'], rfl, rfl, by decide, by decide⟩
  | bool b =>
      cases b
      · exact ⟨'f', ['a', 'l', 's', 'e'], rfl, rfl, by decide, by decide⟩
      · exact ⟨'t', ['r', 'u', 'e'], rfl, rfl, by decide, by decide⟩
  | num n =>
      cases n with
      | finite q =>
          have hden : q.den = 1 := by
            simpa [pureJson] using hp
          have hs : serVal (.num (.finite q)) =
              ((if q < 0 then "-" else "") ++ ⟨natDigits q.num.natAbs⟩).data := by
            show (jsNumToString (.finite q)).data = _
            unfold jsNumToString
            simp [hden]
          rw [hs, String.data_append]
          by_cases hneg : q < 0
          · exact ⟨'-', (String.mk (natDigits q.num.natAbs)).data, by simp [hneg], rfl,
              by decide, by decide⟩
          · cases hd : natDigits q.num.natAbs with
            | nil => exact absurd hd (natDigits_ne_nil _)
            | cons c t =>
                have hcd : isDigitChar c = true := natDigits_all_digits _ c (by rw [hd]; simp)
                refine ⟨c, t, by simp [hneg, hd], ?_, ?_, ?_⟩
                · cases hws : jsIsWs c
                  · rfl
                  · exfalso
                    have : ('0' ≤ c && c ≤ '9') = true := hcd
                    simp only [Bool.and_eq_true, decide_eq_true_eq] at this
                    simp only [jsIsWs, Bool.or_eq_true, decide_eq_true_eq] at hws
                    rcases hws with ((((rfl | rfl) | rfl) | rfl) | rfl) | rfl <;>
                      revert this <;> decide
                · intro hcc
                  rw [hcc] at hcd
                  exact absurd hcd (by decide)
                · intro hcc
                  rw [hcc] at hcd
                  exact absurd hcd (by decide)
      | nan => exact absurd hp (by simp [pureJson])
      | posInf => exact absurd hp (by simp [pureJson])
      | negInf => exact absurd hp (by simp [pureJson])
  | str s => exact ⟨'"', escChars s.data ++ ['"'], rfl, rfl, by decide, by decide⟩
  | arr xs => exact ⟨'[', serElems xs ++ [']'], rfl, rfl, by decide, by decide⟩
  | obj ms => exact ⟨'\x7b', serMembers ms ++ ['\x7d'], rfl, rfl, by decide, by decide⟩

/-- A digit or minus sign is not whitespace and triggers none of the parser's
keyword, string, array or object branches. -/
theorem digit_or_minus_facts (c : Char) (h : isDigitChar c = true ∨ c = '-') :
    jsIsWs c = false ∧ ¬c = 'n' ∧ ¬c = 't' ∧ ¬c = 'f' ∧ ¬c = '"' ∧ ¬c = '[' ∧ ¬c = '\x7b' := by
  rcases h with hd | rfl
  · have hnum : ('0' ≤ c && c ≤ '9') = true := hd
    simp only [Bool.and_eq_true, decide_eq_true_eq] at hnum
    refine ⟨?_, ?_, ?_, ?_, ?_, ?_, ?_⟩
    · cases hws : jsIsWs c
      · rfl
      · exfalso
        simp only [jsIsWs, Bool.or_eq_true, decide_eq_true_eq] at hws
        rcases hws with ((((rfl | rfl) | rfl) | rfl) | rfl) | rfl <;> revert hnum <;> decide
    all_goals
      intro hcc
      rw [hcc] at hd
      exact absurd hd (by decide)
  · exact ⟨rfl, by decide, by decide, by decide, by decide, by decide, by decide⟩

/-- The parser recovers a serialized integer-valued number. -/
theorem parseVal_num (f : ℕ) (q : ℚ) (hden : q.den = 1) (r : List Char)
    (hr : isDelimNext r = true) :
    parseVal (f + 1) (serVal (.num (.finite q)) ++ r) = some (.num (.finite q), r) := by
  have hs : serVal (.num (.finite q)) =
      ((if q < 0 then "-" else "") ++ ⟨natDigits q.num.natAbs⟩).data := by
    show (jsNumToString (.finite q)).data = _
    unfold jsNumToString
    simp [hden]
  have hjn : parseJNum (serVal (.num (.finite q)) ++ r) = some (q, r) := by
    show parseJNum ((jsNumToString (.finite q)).data ++ r) = some (q, r)
    exact parseJNum_serNum q hden r hr
  obtain ⟨c, t, hct, hhead⟩ :
      ∃ c t, serVal (.num (.finite q)) = c :: t ∧ (isDigitChar c = true ∨ c = '-') := by
    rw [hs, String.data_append]
    by_cases hneg : q < 0
    · exact ⟨'-', natDigits q.num.natAbs, by simp [hneg], Or.inr rfl⟩
    · cases hd : natDigits q.num.natAbs with
      | nil => exact absurd hd (natDigits_ne_nil _)
      | cons c t =>
          exact ⟨c, t, by simp [hneg, hd],
            Or.inl (natDigits_all_digits _ c (by rw [hd]; simp))⟩
  obtain ⟨hws, hn, ht, hf, hq2, hbr, hob⟩ := digit_or_minus_facts c hhead
  rw [hct] at hjn ⊢
  show parseVal (f + 1) (c :: (t ++ r)) = _
  rw [parseVal.eq_def]
  simp only [List.cons_append, List.dropWhile_cons, hws, Bool.false_eq_true, if_false,
    hn, ht, hf, hq2, hbr, hob]
  rw [show parseJNum (c :: (t ++ r)) = parseJNum (c :: t ++ r) from rfl, hjn]
  rfl

/-- Definitional unfolding of `parseElems` at successor fuel. -/
theorem parseElems_succ (f : ℕ) (cs : List Char) :
    parseElems (f + 1) cs =
      (match parseVal f cs with
        | none => none
        | some (v, r) =>
            match r.dropWhile jsIsWs with
            | ',' :: r2 =>
                (match parseElems f r2 with
                  | some (es, r3) => some (v :: es, r3)
                  | none => none)
            | ']' :: r2 => some ([v], r2)
            | _ => none) := rfl

/-- Definitional unfolding of `parseMembers` at successor fuel. -/
theorem parseMembers_succ (f : ℕ) (cs : List Char) :
    parseMembers (f + 1) cs =
      (match cs.dropWhile jsIsWs with
        | '"' :: rest =>
            (match parseStrBody rest with
              | none => none
              | some (k, r) =>
                  match r.dropWhile jsIsWs with
                  | ':' :: r2 =>
                      (match parseVal f r2 with
                        | none => none
                        | some (v, r3) =>
                            match r3.dropWhile jsIsWs with
                            | ',' :: r4 =>
                                (match parseMembers f r4 with
                                  | some (ms, r5) => some ((⟨k⟩, v) :: ms, r5)
                                  | none => none)
                            | '\x7d' :: r4 => some ([(⟨k⟩, v)], r4)
                            | _ => none)
                  | _ => none)
        | _ => none) := rfl

/-- Round trip of the fueled parser over the serializer: any fuel exceeding
twice the serialized length recovers a serializable value exactly, in any
delimiter context (and the companion statements for nonempty element and
member lists). -/
theorem parse_ser_roundtrip (f : ℕ) :
    (∀ (x : JSValue) (r : List Char), pureJson x = true → isDelimNext r = true →
      2 * (serVal x).length < f → parseVal f (serVal x ++ r) = some (x, r)) ∧
    (∀ (xs : List JSValue) (r : List Char), xs ≠ [] → pureJsonList xs = true →
      2 * (serElems xs).length + 2 ≤ f →
      parseElems f (serElems xs ++ (']' :: r)) = some (xs, r)) ∧
    (∀ (ms : List (String × JSValue)) (r : List Char), ms ≠ [] → pureJsonMembers ms = true →
      2 * (serMembers ms).length + 2 ≤ f →
      parseMembers f (serMembers ms ++ ('\x7d' :: r)) = some (ms, r)) := by
  induction f with
  | zero =>
      refine ⟨fun x r _ _ hf => absurd hf (by omega), fun xs r _ _ hf => absurd hf (by omega),
        fun ms r _ _ hf => absurd hf (by omega)⟩
  | succ f ihf =>
      obtain ⟨ihP, ihQ, ihR⟩ := ihf
      refine ⟨?_, ?_, ?_⟩
      · -- values
        intro x r hp hr hf
        cases x with
        | undefined => exact absurd hp (by simp [pureJson])
        | null =>
            rw [parseVal.eq_def]
            simp [serVal, List.dropWhile_cons, jsIsWs]
        | bool b =>
            cases b <;> rw [parseVal.eq_def] <;> simp [serVal, List.dropWhile_cons, jsIsWs]
        | num n =>
            cases n with
            | finite q =>
                have hden : q.den = 1 := by simpa [pureJson] using hp
                exact parseVal_num f q hden r hr
            | nan => exact absurd hp (by simp [pureJson])
            | posInf => exact absurd hp (by simp [pureJson])
            | negInf => exact absurd hp (by simp [pureJson])
        | str s =>
            rw [show serVal (.str s) ++ r = '"' :: (escChars s.data ++ ('"' :: r)) by
              simp [serVal]]
            rw [parseVal.eq_def]
            simp [parseStrBody_escChars, List.dropWhile_cons, jsIsWs]
        | arr xs =>
            have hpl : pureJsonList xs = true := by simpa [pureJson] using hp
            have hlen : (serVal (.arr xs)).length = (serElems xs).length + 2 := by
              simp [serVal]
            rw [show serVal (.arr xs) ++ r = '[' :: (serElems xs ++ (']' :: r)) by
              simp [serVal]]
            rw [parseVal.eq_def]
            cases xs with
            | nil => simp [serElems, List.dropWhile_cons, jsIsWs]
            | cons y ys =>
                have hpy : pureJson y = true := by
                  simp only [pureJsonList, Bool.and_eq_true] at hpl
                  exact hpl.1
                obtain ⟨c, t, hct, hws, hnb, hnob⟩ := serVal_head_facts y hpy
                obtain ⟨t2, ht2⟩ : ∃ t2, serElems (y :: ys) = c :: t2 := by
                  cases ys with
                  | nil => exact ⟨t, by simp [serElems, hct]⟩
                  | cons z zs => exact ⟨t ++ ',' :: serElems (z :: zs), by
                      simp [serElems, hct]⟩
                have hq : parseElems f (c :: (t2 ++ (']' :: r))) = some (y :: ys, r) := by
                  rw [show c :: (t2 ++ (']' :: r)) = serElems (y :: ys) ++ (']' :: r) by
                    rw [ht2]; rfl]
                  exact ihQ (y :: ys) r (by simp) hpl (by omega)
                simp only [List.cons_append, List.dropWhile_cons,
                  show jsIsWs '[' = false from rfl, Bool.false_eq_true, if_false,
                  eq_false (show ¬('[' : Char) = 'n' by decide),
                  eq_false (show ¬('[' : Char) = 't' by decide),
                  eq_false (show ¬('[' : Char) = 'f' by decide),
                  eq_false (show ¬('[' : Char) = '"' by decide),
                  eq_self_iff_true, if_true]
                rw [ht2]
                simp only [List.cons_append, List.dropWhile_cons, hws, Bool.false_eq_true,
                  if_false]
                split
                · rename_i r2 heq
                  exact absurd (List.head_eq_of_cons_eq heq) hnb
                · rw [hq]
        | obj ms =>
            have hpm : pureJsonMembers ms = true := by simpa [pureJson] using hp
            have hlen : (serVal (.obj ms)).length = (serMembers ms).length + 2 := by
              simp [serVal]
            rw [show serVal (.obj ms) ++ r = '\x7b' :: (serMembers ms ++ ('\x7d' :: r)) by
              simp [serVal]]
            rw [parseVal.eq_def]
            cases ms with
            | nil => simp [serMembers, List.dropWhile_cons, jsIsWs]
            | cons kv ms' =>
                obtain ⟨k, v⟩ := kv
                have hserm : ∃ t2, serMembers ((k, v) :: ms') = '"' :: t2 := by
                  cases ms' with
                  | nil => exact ⟨_, rfl⟩
                  | cons kv2 ms'' => exact ⟨_, rfl⟩
                obtain ⟨t2, ht2⟩ := hserm
                have hq : parseMembers f ('"' :: (t2 ++ ('\x7d' :: r))) =
                    some ((k, v) :: ms', r) := by
                  rw [show ('"' : Char) :: (t2 ++ ('\x7d' :: r)) =
                    serMembers ((k, v) :: ms') ++ ('\x7d' :: r) by rw [ht2]; rfl]
                  exact ihR ((k, v) :: ms') r (by simp) hpm (by omega)
                simp only [List.cons_append, List.dropWhile_cons,
                  show jsIsWs '\x7b' = false from rfl, Bool.false_eq_true, if_false,
                  eq_false (show ¬('\x7b' : Char) = 'n' by decide),
                  eq_false (show ¬('\x7b' : Char) = 't' by decide),
                  eq_false (show ¬('\x7b' : Char) = 'f' by decide),
                  eq_false (show ¬('\x7b' : Char) = '"' by decide),
                  eq_false (show ¬('\x7b' : Char) = '[' by decide),
                  eq_self_iff_true, if_true]
                rw [ht2]
                simp only [List.cons_append, List.dropWhile_cons,
                  show jsIsWs '"' = false from rfl, Bool.false_eq_true, if_false]
                split
                · rename_i r2 heq
                  exact absurd (List.head_eq_of_cons_eq heq) (by decide)
                · rw [hq]
      · -- element lists
        intro xs r hne hpl hf
        cases xs with
        | nil => exact absurd rfl hne
        | cons y ys =>
            have hps : pureJson y = true ∧ pureJsonList ys = true := by
              simpa [pureJsonList, Bool.and_eq_true] using hpl
            cases ys with
            | nil =>
                rw [show serElems [y] ++ (']' :: r) = serVal y ++ (']' :: r) from rfl]
                rw [parseElems_succ]
                rw [ihP y (']' :: r) hps.1 (by rfl) (by
                  have : (serElems [y]).length = (serVal y).length := by simp [serElems]
                  omega)]
                simp [List.dropWhile_cons, jsIsWs]
            | cons z zs =>
                have hlen2 : (serElems (y :: z :: zs)).length =
                    (serVal y).length + 1 + (serElems (z :: zs)).length := by
                  simp only [serElems, List.length_append, List.length_cons]
                  omega
                rw [show serElems (y :: z :: zs) ++ (']' :: r) =
                    serVal y ++ (',' :: (serElems (z :: zs) ++ (']' :: r))) by
                  simp only [serElems, List.cons_append, List.append_assoc]]
                rw [parseElems_succ]
                rw [ihP y (',' :: (serElems (z :: zs) ++ (']' :: r))) hps.1 (by rfl)
                  (by omega)]
                have hq2 : parseElems f (serElems (z :: zs) ++ (']' :: r)) =
                    some (z :: zs, r) := ihQ (z :: zs) r (by simp) hps.2 (by omega)
                simp [List.dropWhile_cons, jsIsWs, hq2]
      · -- member lists
        intro ms r hne hpm hf
        cases ms with
        | nil => exact absurd rfl hne
        | cons kv ms' =>
            obtain ⟨k, v⟩ := kv
            have hps : pureJson v = true ∧ pureJsonMembers ms' = true := by
              simpa [pureJsonMembers, Bool.and_eq_true] using hpm
            cases ms' with
            | nil =>
                have hshape : serMembers [(k, v)] ++ ('\x7d' :: r) =
                    '"' :: (escChars k.data ++ ('"' :: (':' :: (serVal v ++ ('\x7d' :: r))))) := by
                  simp only [serMembers, List.cons_append, List.append_assoc]
                rw [hshape, parseMembers_succ]
                simp only [List.dropWhile_cons, show jsIsWs '"' = false from rfl,
                  Bool.false_eq_true, if_false]
                rw [parseStrBody_escChars k.data (':' :: (serVal v ++ ('\x7d' :: r)))]
                simp only [List.dropWhile_cons, show jsIsWs ':' = false from rfl,
                  Bool.false_eq_true, if_false]
                rw [ihP v ('\x7d' :: r) hps.1 (by rfl) (by
                  have : (serMembers [(k, v)]).length =
                      (escChars k.data).length + 3 + (serVal v).length := by
                    simp only [serMembers, List.length_cons, List.length_append]
                    omega
                  omega)]
                simp [List.dropWhile_cons, jsIsWs]
            | cons kv2 ms'' =>
                have hlen2 : (serMembers ((k, v) :: kv2 :: ms'')).length =
                    (escChars k.data).length + 3 + (serVal v).length + 1 +
                      (serMembers (kv2 :: ms'')).length := by
                  simp only [serMembers, List.length_cons, List.length_append]
                  omega
                have hshape : serMembers ((k, v) :: kv2 :: ms'') ++ ('\x7d' :: r) =
                    '"' :: (escChars k.data ++ ('"' :: (':' :: (serVal v ++
                      (',' :: (serMembers (kv2 :: ms'') ++ ('\x7d' :: r))))))) := by
                  simp only [serMembers, List.cons_append, List.append_assoc]
                rw [hshape, parseMembers_succ]
                simp only [List.dropWhile_cons, show jsIsWs '"' = false from rfl,
                  Bool.false_eq_true, if_false]
                rw [parseStrBody_escChars k.data
                  (':' :: (serVal v ++ (',' :: (serMembers (kv2 :: ms'') ++ ('\x7d' :: r)))))]
                simp only [List.dropWhile_cons, show jsIsWs ':' = false from rfl,
                  Bool.false_eq_true, if_false]
                rw [ihP v (',' :: (serMembers (kv2 :: ms'') ++ ('\x7d' :: r))) hps.1
                  (by rfl) (by omega)]
                have hr2 : parseMembers f (serMembers (kv2 :: ms'') ++ ('\x7d' :: r)) =
                    some (kv2 :: ms'', r) := ihR (kv2 :: ms'') r (by simp) hps.2 (by omega)
                simp [List.dropWhile_cons, jsIsWs, hr2]

/-- `JSON.parse` recovers any serializable value from its serialization. -/
theorem jsonParseChars_serVal (x : JSValue) (hp : pureJson x = true) :
    jsonParseChars (serVal x) = some x := by
  unfold jsonParseChars
  have h := (parse_ser_roundtrip (2 * (serVal x).length + 2)).1 x [] hp (by rfl) (by omega)
  rw [List.append_nil] at h
  rw [h]
  simp

/-- C5 counterexample: for the object whose string content contains a
markdown fence, the fenced presentation is corrupted — fence stripping
deletes the in-string backticks, so extraction returns a different object. -/
theorem claim_C5_counterexample :
    extractJSON ("```json\n" ++ ⟨serVal cexFenceValue⟩ ++ "\n```") =
      .ok (.obj [("a", .str "")]) ∧
    ¬ (JSValue.obj [("a", JSValue.str "")] = cexFenceValue) := by
  refine ⟨rfl, ?_⟩
  intro h
  injection h with h1
  injection h1 with h2 _
  injection h2 with _ h3
  injection h3 with h4
  exact absurd h4 (by decide)

/-- C5 (amended): `extractJSON` recovers every JSON-serializable value from
its plain serialization (first parse succeeds), and recovers `{"a":1}` both
from the markdown-fenced example and from the prose-embedded example; the
fenced and prose recoveries do not extend to every value (see the
counterexample). -/
theorem claim_C5_roundtrip :
    (∀ x : JSValue, pureJson x = true → extractJSON ⟨serVal x⟩ = .ok x) ∧
    extractJSON "Sure! ```json\n\x7b\"a\":1\x7d\n```" = .ok (.obj [("a", .num (.finite 1))]) ∧
    extractJSON "prefix \x7b\"a\":1\x7d suffix" = .ok (.obj [("a", .num (.finite 1))]) := by
  refine ⟨fun x hp => ?_, rfl, rfl⟩
  unfold extractJSON
  rw [show (String.mk (serVal x)).data = serVal x from rfl, jsonParseChars_serVal x hp]

/-- C5 witness: the round trip evaluated at the example object. -/
theorem claim_C5_roundtrip_witness :
    pureJson (.obj [("a", .num (.finite 1))]) = true ∧
    extractJSON ⟨serVal (.obj [("a", .num (.finite 1))])⟩ =
      .ok (.obj [("a", .num (.finite 1))]) :=
  ⟨by rfl, claim_C5_roundtrip.1 (.obj [("a", .num (.finite 1))]) (by rfl)⟩
